import Mathlib

/-!
# Verification of the DataSift push-delivery HTTP server

A shallow embedding of `lib/server.js` (the gzip-capable revision): the
request-validation pipeline (authentication, path, size), body assembly with
optional decompression, the payload classifier and the three JSON framing
parsers, and the delivery/confirmation handshake.

Modelling conventions:
* JavaScript strings and byte buffers are both modelled as `JStr := List Nat`
  (code points / byte values; they coincide on the ASCII data the server
  manipulates, so `Buffer#toString` is the identity in the model).
* JSON numbers are modelled as integers (the payloads in the properties under
  verification use no fractional numbers).
* The HTTP response object records every finalization attempt in order; the
  response visible to the sender is the first write (Node's `ServerResponse`
  cannot re-send a status line once headers have gone out).
* `zlib.inflate` is an external collaborator; the pipeline is parametric in a
  `inflate : JStr → Option JStr` function.  The one fact of zlib used in the
  theorems is its documented header validation: a zlib stream starts with a
  CMF byte whose low nibble is 8, which no gzip stream (magic `1f 8b`)
  satisfies.
-/

/-- A JavaScript string / byte buffer: a list of code points (byte values). -/
abbrev JStr := List Nat

/-- Embed a Lean string literal as a `JStr` (code points). -/
def jstr (s : String) : JStr := s.toList.map Char.toNat

/-- JS `String.prototype.split(sep)` with a single-character separator.
The result is never empty: `"".split(c) == [""]`. -/
def jsSplit (sep : Nat) : JStr → List JStr
  | [] => [[]]
  | c :: rest =>
    match jsSplit sep rest with
    | [] => [[c]]
    | h :: t => if c = sep then [] :: h :: t else (c :: h) :: t

/-- The whitespace class of JS `String.prototype.trim` (ASCII part plus
NBSP and BOM, the only members that can occur in our byte-level model). -/
def isTrimWs (c : Nat) : Bool :=
  c = 9 || c = 10 || c = 11 || c = 12 || c = 13 || c = 32 || c = 160 || c = 65279

/-- JS `String.prototype.trim`. -/
def jsTrim (s : JStr) : JStr :=
  ((s.dropWhile isTrimWs).reverse.dropWhile isTrimWs).reverse

/-- Decimal digits of a natural number (JS `Number#toString` for integers),
with an explicit structural fuel so that it evaluates in the kernel. -/
def natDigitsAux : Nat → Nat → JStr
  | 0, _ => []
  | f + 1, n => if n < 10 then [48 + n] else natDigitsAux f (n / 10) ++ [48 + n % 10]

/-- Decimal representation of a natural number as a `JStr`. -/
def natDigits (n : Nat) : JStr := natDigitsAux (n + 1) n

/-- Decimal representation of an integer as a `JStr`. -/
def intDigits (n : Int) : JStr :=
  if n < 0 then 45 :: natDigits n.natAbs else natDigits n.natAbs

/-- Value of a digit string (accumulating left fold, as a parser computes it). -/
def digitsVal (ds : JStr) : Nat := ds.foldl (fun acc d => acc * 10 + (d - 48)) 0

/-- ASCII decimal digit test. -/
def isDigitByte (c : Nat) : Bool := 48 ≤ c && c ≤ 57

/-- Base64 value of one alphabet character (`A-Z a-z 0-9 + /`); `none` for
characters outside the alphabet (ignored by Node's lenient decoder). -/
def b64Val (c : Nat) : Option Nat :=
  if 65 ≤ c ∧ c ≤ 90 then some (c - 65)
  else if 97 ≤ c ∧ c ≤ 122 then some (c - 71)
  else if 48 ≤ c ∧ c ≤ 57 then some (c + 4)
  else if c = 43 then some 62
  else if c = 47 then some 63
  else none

/-- Regroup base64 sextets into bytes (trailing 1 sextet carries no byte). -/
def b64Bytes : List Nat → List Nat
  | s0 :: s1 :: s2 :: s3 :: rest =>
    (s0 * 4 + s1 / 16) :: ((s1 % 16) * 16 + s2 / 4) :: ((s2 % 4) * 64 + s3) :: b64Bytes rest
  | [s0, s1] => [s0 * 4 + s1 / 16]
  | [s0, s1, s2] => [s0 * 4 + s1 / 16, (s1 % 16) * 16 + s2 / 4]
  | _ => []

/-- Model of `new Buffer(s, 'base64').toString()`: decode the base64 alphabet
characters of `s` (others, including `=` padding, are skipped) into bytes. -/
def b64DecodeStr (s : JStr) : JStr := b64Bytes (s.filterMap b64Val)

mutual
/-- A JSON value as produced by `JSON.parse` (numbers restricted to
integers, strings as code-point lists). -/
inductive Json where
  | null
  | bool (b : Bool)
  | num (n : Int)
  | str (s : JStr)
  | arr (elems : JsonArr)
  | obj (fields : JsonObj)
/-- The elements of a JSON array. -/
inductive JsonArr where
  | nil
  | cons (hd : Json) (tl : JsonArr)
/-- The key/value fields of a JSON object, in textual order. -/
inductive JsonObj where
  | nil
  | cons (key : JStr) (val : Json) (tl : JsonObj)
end

/-- Hexadecimal digit (lowercase), as `JSON.stringify` writes `\u00xx`. -/
def hexDigit (d : Nat) : Nat := if d < 10 then 48 + d else 87 + d

/-- Value of a hexadecimal digit character (upper or lower case). -/
def hexVal (c : Nat) : Option Nat :=
  if 48 ≤ c ∧ c ≤ 57 then some (c - 48)
  else if 97 ≤ c ∧ c ≤ 102 then some (c - 87)
  else if 65 ≤ c ∧ c ≤ 70 then some (c - 55)
  else none

/-- `JSON.stringify` escaping of one string character: `"` and `\` get a
backslash, the named control escapes are used where they exist, other
control characters become `\u00xx`, everything else is emitted verbatim. -/
def escapeByte (c : Nat) : JStr :=
  if c = 34 then [92, 34]
  else if c = 92 then [92, 92]
  else if c = 8 then [92, 98]
  else if c = 9 then [92, 116]
  else if c = 10 then [92, 110]
  else if c = 12 then [92, 102]
  else if c = 13 then [92, 114]
  else if c < 32 then [92, 117, 48, 48, hexDigit (c / 16), hexDigit (c % 16)]
  else [c]

/-- `JSON.stringify` escaping of a whole string body (without the quotes). -/
def escapeStr (s : JStr) : JStr := s.foldr (fun c acc => escapeByte c ++ acc) []

mutual
/-- `JSON.stringify` (no indent), restricted to the modelled value space. -/
def stringify : Json → JStr
  | .null => [110, 117, 108, 108]
  | .bool true => [116, 114, 117, 101]
  | .bool false => [102, 97, 108, 115, 101]
  | .num n => intDigits n
  | .str s => 34 :: escapeStr s ++ [34]
  | .arr xs => 91 :: stringifyElems xs ++ [93]
  | .obj ms => 123 :: stringifyFields ms ++ [125]
/-- Comma-joined stringifications of array elements. -/
def stringifyElems : JsonArr → JStr
  | .nil => []
  | .cons h .nil => stringify h
  | .cons h (.cons h2 t) => stringify h ++ 44 :: stringifyElems (.cons h2 t)
/-- Comma-joined `"key":value` stringifications of object fields. -/
def stringifyFields : JsonObj → JStr
  | .nil => []
  | .cons k v .nil => 34 :: escapeStr k ++ [34, 58] ++ stringify v
  | .cons k v (.cons k2 v2 t) =>
    34 :: escapeStr k ++ [34, 58] ++ stringify v ++ 44 :: stringifyFields (.cons k2 v2 t)
end

/-- JSON grammar whitespace (`JSON.parse` skips space, tab, LF, CR). -/
def isJsonWs (c : Nat) : Bool := c = 32 || c = 9 || c = 10 || c = 13

/-- Skip JSON whitespace. -/
def skipWs (s : JStr) : JStr := s.dropWhile isJsonWs

/-- Consume an expected literal prefix, returning the remainder. -/
def dropLit : JStr → JStr → Option JStr
  | [], r => some r
  | p :: ps, c :: r => if c = p then dropLit ps r else none
  | _ :: _, [] => none

/-- Decode a single-character JSON escape sequence. -/
def unescapeChar (e : Nat) : Option Nat :=
  if e = 34 then some 34
  else if e = 92 then some 92
  else if e = 47 then some 47
  else if e = 98 then some 8
  else if e = 102 then some 12
  else if e = 110 then some 10
  else if e = 114 then some 13
  else if e = 116 then some 9
  else none

mutual
/-- Parse the body of a JSON string after the opening quote, undoing the
escape sequences; returns the decoded string and the input after the
closing quote. -/
def parseStrBody : JStr → Option (JStr × JStr)
  | [] => none
  | c :: rest =>
    if c = 34 then some ([], rest)
    else if c = 92 then parseEsc rest
    else do
      let p ← parseStrBody rest
      pure (c :: p.1, p.2)
/-- Parse what follows a backslash in a JSON string: `\uXXXX` or a
single-character escape. -/
def parseEsc : JStr → Option (JStr × JStr)
  | 117 :: h1 :: h2 :: h3 :: h4 :: rest2 => do
    let a ← hexVal h1
    let b ← hexVal h2
    let c ← hexVal h3
    let d ← hexVal h4
    let p ← parseStrBody rest2
    pure ((((a * 16 + b) * 16 + c) * 16 + d) :: p.1, p.2)
  | e :: rest2 => do
    let u ← unescapeChar e
    let p ← parseStrBody rest2
    pure (u :: p.1, p.2)
  | [] => none
end

/-- Parse a nonempty run of decimal digits. -/
def parseNat (s : JStr) : Option (Nat × JStr) :=
  match s.takeWhile isDigitByte with
  | [] => none
  | ds => some (digitsVal ds, s.dropWhile isDigitByte)

mutual
/-- Recursive-descent JSON value parser (model of `JSON.parse`, numbers
restricted to integers).  The structural fuel only bounds nesting; it is
chosen generously by `parseJson` below. -/
def parseValue : Nat → JStr → Option (Json × JStr)
  | 0, _ => none
  | fuel + 1, s0 =>
    match skipWs s0 with
    | [] => none
    | c :: r =>
      if c = 110 then (dropLit [117, 108, 108] r).map (fun r2 => (Json.null, r2))
      else if c = 116 then (dropLit [114, 117, 101] r).map (fun r2 => (Json.bool true, r2))
      else if c = 102 then (dropLit [97, 108, 115, 101] r).map (fun r2 => (Json.bool false, r2))
      else if c = 34 then (parseStrBody r).map (fun p => (Json.str p.1, p.2))
      else if c = 91 then
        match skipWs r with
        | 93 :: r2 => some (Json.arr .nil, r2)
        | r1 => (parseElems fuel r1).map (fun p => (Json.arr p.1, p.2))
      else if c = 123 then
        match skipWs r with
        | 125 :: r2 => some (Json.obj .nil, r2)
        | r1 => (parseFields fuel r1).map (fun p => (Json.obj p.1, p.2))
      else if c = 45 then (parseNat r).map (fun p => (Json.num (-(p.1 : Int)), p.2))
      else if isDigitByte c then (parseNat (c :: r)).map (fun p => (Json.num (p.1 : Int), p.2))
      else none
/-- Parse the elements of a nonempty JSON array, consuming the closing `]`. -/
def parseElems : Nat → JStr → Option (JsonArr × JStr)
  | 0, _ => none
  | fuel + 1, s => do
    let (v, r) ← parseValue fuel s
    match skipWs r with
    | 44 :: r2 => do
      let (vs, r3) ← parseElems fuel r2
      pure (JsonArr.cons v vs, r3)
    | 93 :: r2 => pure (JsonArr.cons v .nil, r2)
    | _ => none
/-- Parse the fields of a nonempty JSON object, consuming the closing brace. -/
def parseFields : Nat → JStr → Option (JsonObj × JStr)
  | 0, _ => none
  | fuel + 1, s =>
    match skipWs s with
    | 34 :: r => do
      let (k, r2) ← parseStrBody r
      match skipWs r2 with
      | 58 :: r3 => do
        let (v, r4) ← parseValue fuel r3
        match skipWs r4 with
        | 44 :: r5 => do
          let (ms, r6) ← parseFields fuel r5
          pure (JsonObj.cons k v ms, r6)
        | 125 :: r5 => pure (JsonObj.cons k v .nil, r5)
        | _ => none
      | _ => none
    | _ => none
end

/-- Model of `JSON.parse`: parse one value and require only whitespace after
it; `none` models a thrown `SyntaxError`. -/
def parseJson (s : JStr) : Option Json :=
  match parseValue (s.length + 1) s with
  | some (v, rest) => if skipWs rest = [] then some v else none
  | none => none

/-- Last-wins property lookup on a parsed JSON object (JS objects keep the
last of duplicate keys from `JSON.parse`). -/
def objLookup : JsonObj → JStr → Option Json
  | .nil, _ => none
  | .cons k v t, key =>
    match objLookup t key with
    | some r => some r
    | none => if k = key then some v else none

/-- Convert a `JsonArr` to a Lean list (for stating batch properties). -/
def arrToList : JsonArr → List Json
  | .nil => []
  | .cons h t => h :: arrToList t

/-- Parse every line independently (`split("\n").map(JSON.parse)`); a single
failing line fails the whole batch, as the thrown exception does in JS. -/
def parseLines : List JStr → Option JsonArr
  | [] => some .nil
  | l :: ls => do
    let v ← parseJson l
    let vs ← parseLines ls
    pure (JsonArr.cons v vs)

/-- JS truthiness of a JSON value (`undefined` is handled by `Option`). -/
def jsFalsy : Json → Bool
  | .null => true
  | .bool b => !b
  | .num n => n = 0
  | .str s => s = []
  | .arr _ => false
  | .obj _ => false

/-! ## Configuration (`Server.prototype.initialize`) -/

/-- The constructor options object.  An outer `none` means the key is absent
(`hasOwnProperty` false); for `hostname` the inner `Option` distinguishes an
explicit `undefined` value from a string. -/
structure Options where
  hostname : Option (Option JStr) := none
  port : Option Nat := none
  path : Option JStr := none
  format : Option JStr := none
  confirmData : Option Bool := none
  maxSize : Option Nat := none
  username : Option JStr := none
  password : Option JStr := none

/-- The server's per-instance configuration after `initialize` ran. -/
structure ServerCfg where
  hostname : Option JStr := none
  port : Nat := 80
  path : JStr := jstr "/"
  format : JStr := jstr "json_meta"
  confirmData : Bool := false
  maxSize : Nat := 20971520
  username : Option JStr := none
  password : Option JStr := none

/-- JS `x || default` for an optional numeric option (0 is falsy). -/
def numOr (o : Option Nat) (d : Nat) : Nat :=
  match o with
  | some n => if n = 0 then d else n
  | none => d

/-- JS `x || default` for an optional string option (`""` is falsy). -/
def strOr (o : Option JStr) (d : JStr) : JStr :=
  match o with
  | some s => if s = [] then d else s
  | none => d

/-- Model of `Server.prototype.initialize`: `hostname` and `confirmData` are
read with `hasOwnProperty`, the remaining options with `||` fallbacks. -/
def initializeServer (o : Options) : ServerCfg :=
  { hostname := match o.hostname with | some v => v | none => none
    port := numOr o.port 80
    path := strOr o.path (jstr "/")
    format := strOr o.format (jstr "json_meta")
    confirmData := match o.confirmData with | some b => b | none => false
    maxSize := numOr o.maxSize 20971520
    username := o.username
    password := o.password }

/-! ## Requests, responses and the notification trace -/

/-- An incoming HTTP request: url, the consumed headers, and the body as the
stream of chunks in arrival order. -/
structure Request where
  url : JStr := jstr "/"
  authorization : Option JStr := none
  contentEncoding : Option JStr := none
  hashHdr : Option JStr := none
  hashTypeHdr : Option JStr := none
  idHdr : Option JStr := none
  chunks : List JStr := []

/-- The `pathname` of `url.parse(u, true)` for a server request url: the
part before any query string or fragment. -/
def pathnameOf (u : JStr) : JStr := u.takeWhile (fun c => !(c = 63 || c = 35))

/-- The response sink.  Every `writeHead`/`end` pair the server executes is
recorded in order; Node's `ServerResponse` sends only the first (later
attempts raise and cannot change what went over the wire). -/
structure Response where
  writes : List (Nat × JStr) := []

/-- The status line and body actually visible to the sender. -/
def sentResponse (r : Response) : Option (Nat × JStr) := r.writes.head?

/-- `http.STATUS_CODES` for the codes the server uses. -/
def statusText (code : Nat) : JStr :=
  if code = 200 then jstr "OK"
  else if code = 400 then jstr "Bad Request"
  else if code = 401 then jstr "Unauthorized"
  else if code = 404 then jstr "Not Found"
  else if code = 413 then jstr "Request Entity Too Large"
  else if code = 500 then jstr "Internal Server Error"
  else jstr ""

/-- Model of `Server.prototype.respond`: default the code to 200, and answer
`{"success": true}` for a bare 200 or the status text otherwise. -/
def respond (r : Response) (code : Nat) (data : Option JStr) : Response :=
  let c := if code = 0 then 200 else code
  let body :=
    if c = 200 ∧ data = none then jstr "\x7b\"success\":true\x7d"
    else (data.getD (statusText c))
  { writes := r.writes ++ [(c, body)] }

/-- Request metadata handed to the application with each `data` event. -/
structure Meta where
  url : JStr
  pathname : JStr
  hash : Option JStr
  hashType : Option JStr
  dsId : Option JStr

/-- Model of `emitData`'s meta-data assembly. -/
def buildMeta (req : Request) : Meta :=
  { url := req.url
    pathname := pathnameOf req.url
    hash := req.hashHdr
    hashType := req.hashTypeHdr
    dsId := req.idHdr }

/-- One notification emitted to the application. -/
inductive Ev where
  | refused (reason : JStr)
  | check
  | dataEmit (payload : Json) (meta : Meta) (hasCallback : Bool)
  | errorEv (msg : JStr)

/-- The observable per-request processing state: the response sink, the
notification trace, the connection's destroyed flag, the argument of the
last `parse` invocation (`none` while the parser has not run), and whether
the confirmation timer is still pending. -/
structure SState where
  resp : Response := {}
  events : List Ev := []
  destroyed : Bool := false
  parseArg : Option JStr := none
  timerActive : Bool := false

/-- Record a finalization attempt (`this.respond(response, code)`). -/
def SState.respondWith (st : SState) (code : Nat) : SState :=
  { st with resp := respond st.resp code none }

/-- Append a notification to the trace (`this.emit(...)`). -/
def SState.emitEv (st : SState) (e : Ev) : SState :=
  { st with events := st.events ++ [e] }

/-! ## Refusal reason strings -/

/-- Reason for a 401 refusal. -/
def authRefusedMsg : JStr := jstr "Request did not contain required authentication headers"

/-- Reason for a 404 refusal. -/
def pathRefusedMsg (requested configured : JStr) : JStr :=
  jstr "Requested path \"" ++ requested ++ jstr "\" does not match \"" ++ configured ++ jstr "\""

/-- Reason for a 413 refusal. -/
def sizeRefusedMsg (maxSize : Nat) : JStr :=
  jstr "Post data exceeded limit of " ++ natDigits maxSize ++ jstr " bytes"

/-- Reason for a 400 refusal after failed decompression. -/
def inflateRefusedMsg : JStr := jstr "Could not inflate compressed data"

/-- Reason for a 400 refusal after a parse failure. -/
def parseRefusedMsg : JStr := jstr "Could not parse post data"

/-- `error` message when the confirmation callback is not invoked in time. -/
def timeoutErrorMsg : JStr := jstr "Callback for data event not called within allowed time"

/-! ## The validation pipeline -/

/-- JS truthiness of an optional string (`undefined` and `""` are falsy). -/
def truthyStr (o : Option JStr) : Bool :=
  match o with
  | some s => s ≠ []
  | none => false

/-- Model of `Server.prototype.validateAuthentication`.  When credentials
are configured, the *last space-separated token* of the `Authorization`
header is base64-decoded and split on `:`; the first two fields must equal
the configured username and password. -/
def validateAuthentication (cfg : ServerCfg) (req : Request) (st : SState) :
    Bool × SState :=
  if !(truthyStr cfg.username && truthyStr cfg.password) then (true, st)
  else
    let header := req.authorization.getD []
    let encrypted := (jsSplit 32 header).getLastD []
    let credentials := jsSplit 58 (b64DecodeStr encrypted)
    if credentials.get? 0 = cfg.username ∧ credentials.get? 1 = cfg.password then (true, st)
    else (false, (st.respondWith 401).emitEv (.refused authRefusedMsg))

/-- Model of `Server.prototype.validatePath`: the parsed pathname must have
the configured path as a string prefix. -/
def validatePath (cfg : ServerCfg) (req : Request) (st : SState) : Bool × SState :=
  let path := pathnameOf req.url
  if cfg.path.isPrefixOf path then (true, st)
  else (false, (st.respondWith 404).emitEv (.refused (pathRefusedMsg path cfg.path)))

/-- Model of `Server.prototype.validateSize`: reject (413, destroy the
connection, notify) as soon as the cumulative size exceeds the maximum. -/
def validateSize (cfg : ServerCfg) (st : SState) (size : Nat) : Bool × SState :=
  if size ≤ cfg.maxSize then (true, st)
  else
    (false, ({ st.respondWith 413 with destroyed := true }).emitEv
      (.refused (sizeRefusedMsg cfg.maxSize)))

/-- One `data` listener invocation: skip everything once the connection is
destroyed, otherwise count the chunk, validate the size, and append the
chunk to the body buffer when accepted. -/
def handleChunk (cfg : ServerCfg) (acc : SState × Nat × List JStr) (chunk : JStr) :
    SState × Nat × List JStr :=
  let (st, size, buffer) := acc
  if st.destroyed then (st, size, buffer)
  else
    let size := size + chunk.length
    match validateSize cfg st size with
    | (true, st) => (st, size, buffer ++ [chunk])
    | (false, st) => (st, size, buffer)

/-- Model of `Server.prototype.handleCheck`: a body of exactly `{}` is a
liveness probe — answer 200 and notify `check`. -/
def handleCheck (st : SState) (rawData : JStr) : Bool × SState :=
  if rawData = [123, 125] then (true, (st.respondWith 200).emitEv .check)
  else (false, st)

/-- The result of `Server.prototype.parse`'s body: a thrown-and-caught
exception, or a returned value (`none` models returning `undefined`). -/
inductive ParseOutcome where
  | threw
  | value (v : Option Json)

/-- The data extraction of `Server.prototype.parse`: for `json_meta` and
`json_array`, `JSON.parse(rawData).interactions` (property access on `null`
throws, on any other non-object yields `undefined`); otherwise one
`JSON.parse` per trimmed line. -/
def parseData (cfg : ServerCfg) (rawData : JStr) : ParseOutcome :=
  if cfg.format = jstr "json_meta" ∨ cfg.format = jstr "json_array" then
    match parseJson rawData with
    | none => .threw
    | some .null => .threw
    | some (.obj ms) => .value (objLookup ms (jstr "interactions"))
    | some _ => .value none
  else
    match parseLines (jsSplit 10 (jsTrim rawData)) with
    | some vs => .value (some (.arr vs))
    | none => .threw

/-- Model of `Server.prototype.parse`: on an exception, answer 400 and
notify `refused`; the returned JS value is `none` for `undefined`. -/
def parse (cfg : ServerCfg) (st : SState) (rawData : JStr) : SState × Option Json :=
  match parseData cfg rawData with
  | .threw => ((st.respondWith 400).emitEv (.refused parseRefusedMsg), none)
  | .value v => (st, v)

/-- The `done` closure of `Server.prototype.emitData`: clear the pending
timer and finalize with 500 exactly when called as `done(false)`. -/
def doneCall (st : SState) (success : Option Json) : SState :=
  let st := { st with timerActive := false }
  st.respondWith (match success with | some (.bool false) => 500 | _ => 200)

/-- The confirmation timer firing: if it was not cleared, notify `error`
and run `done(false)`; a cleared or already-fired timer does nothing. -/
def timerFire (st : SState) : SState :=
  if st.timerActive then doneCall (st.emitEv (.errorEv timeoutErrorMsg)) (some (.bool false))
  else st

/-- Model of `Server.prototype.emitData`: with `confirmData` the `data`
notification carries the completion callback and the timer starts pending;
otherwise the server immediately runs `done()` itself. -/
def emitData (cfg : ServerCfg) (req : Request) (st : SState) (data : Json) : SState :=
  let meta := buildMeta req
  if cfg.confirmData then
    { st.emitEv (.dataEmit data meta true) with timerActive := true }
  else
    doneCall (st.emitEv (.dataEmit data meta false)) none

/-- Model of `Server.prototype.handleRequestData`: classify checks, parse
(recording the parser's argument), drop falsy results, and deliver. -/
def handleRequestData (cfg : ServerCfg) (req : Request) (st : SState) (rawData : JStr) :
    SState :=
  match handleCheck st rawData with
  | (true, st) => st
  | (false, st) =>
    let st := { st with parseArg := some rawData }
    match parse cfg st rawData with
    | (st, none) => st
    | (st, some v) => if jsFalsy v then st else emitData cfg req st v

/-- Model of `Buffer#toString` on the byte/code-point identification. -/
def bufToString (b : JStr) : JStr := b

/-- The `end` listener: skip if destroyed, concatenate the buffered chunks,
reverse a gzip content encoding via the external `inflate`, and hand the
text to `handleRequestData` (or refuse with 400 when inflation fails). -/
def handleEnd (cfg : ServerCfg) (inflate : JStr → Option JStr) (req : Request)
    (st : SState) (buffer : List JStr) : SState :=
  if st.destroyed then st
  else
    let bufferData := buffer.foldr (· ++ ·) []
    if req.contentEncoding = some (jstr "gzip") then
      match inflate bufferData with
      | none => (st.respondWith 400).emitEv (.refused inflateRefusedMsg)
      | some data => handleRequestData cfg req st (bufToString data)
    else handleRequestData cfg req st (bufToString bufferData)

/-- Model of `Server.prototype.handleRequest`: authentication and path
gates, then the streaming size-checked body assembly, then the end phase. -/
def handleRequest (cfg : ServerCfg) (inflate : JStr → Option JStr) (req : Request) :
    SState :=
  match validateAuthentication cfg req {} with
  | (false, st) => st
  | (true, st) =>
    match validatePath cfg req st with
    | (false, st) => st
    | (true, st) =>
      let (st, _, buffer) := req.chunks.foldl (handleChunk cfg) (st, 0, [])
      handleEnd cfg inflate req st buffer

/-- Documented zlib stream header check (RFC 1950): the CMF byte's low
nibble is the deflate method 8 and the CMF/FLG pair is a multiple of 31.
`zlib.inflate` fails on any input that does not satisfy it — in particular
on every gzip stream, whose magic is `1f 8b`. -/
def zlibHeaderOk (b : JStr) : Bool :=
  match b with
  | b0 :: b1 :: _ => b0 % 16 = 8 && (b0 * 256 + b1) % 31 = 0
  | _ => false

/-! ## Elementary facts about the string utilities -/

theorem takeWhile_append_eq {p : Nat → Bool} :
    ∀ (a b : JStr), (∀ c ∈ a, p c = true) →
      (∀ c, b.head? = some c → p c = false) → (a ++ b).takeWhile p = a := by
  intro a b ha hb
  induction a with
  | nil =>
    cases b with
    | nil => rfl
    | cons c t => simp [List.takeWhile_cons, hb c rfl]
  | cons c t ih =>
    simp only [List.cons_append, List.takeWhile_cons, ha c (by simp)]
    simp [ih (fun x hx => ha x (by simp [hx]))]

theorem dropWhile_append_eq {p : Nat → Bool} :
    ∀ (a b : JStr), (∀ c ∈ a, p c = true) →
      (∀ c, b.head? = some c → p c = false) → (a ++ b).dropWhile p = b := by
  intro a b ha hb
  induction a with
  | nil =>
    cases b with
    | nil => rfl
    | cons c t => simp [List.dropWhile_cons, hb c rfl]
  | cons c t ih =>
    simp only [List.cons_append, List.dropWhile_cons, ha c (by simp)]
    simp [ih (fun x hx => ha x (by simp [hx]))]

theorem skipWs_of_head (c : Nat) (r : JStr) (h : isJsonWs c = false) :
    skipWs (c :: r) = c :: r := by
  simp [skipWs, List.dropWhile_cons, h]

theorem natDigitsAux_digits :
    ∀ (fuel n : Nat), ∀ c ∈ natDigitsAux fuel n, 48 ≤ c ∧ c ≤ 57 := by
  intro fuel
  induction fuel with
  | zero => intro n c hc; simp [natDigitsAux] at hc
  | succ f ih =>
    intro n c hc
    by_cases h : n < 10
    · simp [natDigitsAux, h] at hc
      omega
    · simp only [natDigitsAux, if_neg h, List.mem_append] at hc
      rcases hc with hc | hc
      · exact ih _ c hc
      · simp at hc
        omega

theorem natDigits_digits (n : Nat) : ∀ c ∈ natDigits n, 48 ≤ c ∧ c ≤ 57 :=
  natDigitsAux_digits (n + 1) n

theorem natDigits_ne_nil (n : Nat) : natDigits n ≠ [] := by
  unfold natDigits natDigitsAux
  by_cases h : n < 10 <;> simp [h]

theorem digitsVal_concat (ds : JStr) (d : Nat) :
    digitsVal (ds ++ [d]) = digitsVal ds * 10 + (d - 48) := by
  simp [digitsVal, List.foldl_append]

theorem digitsVal_natDigitsAux :
    ∀ (fuel n : Nat), n < fuel → digitsVal (natDigitsAux fuel n) = n := by
  intro fuel
  induction fuel with
  | zero => omega
  | succ f ih =>
    intro n hn
    by_cases h : n < 10
    · simp [natDigitsAux, h, digitsVal]
    · have hself : n / 10 < n := Nat.div_lt_self (by omega) (by omega)
      have hdiv : n / 10 < f := by omega
      simp only [natDigitsAux, if_neg h, digitsVal_concat, ih _ hdiv]
      omega

theorem digitsVal_natDigits (n : Nat) : digitsVal (natDigits n) = n :=
  digitsVal_natDigitsAux (n + 1) n (by omega)

/-- A suffix starting with a JSON structural separator (or nothing): the
contexts in which a serialized value is re-parsed. -/
def sepOk : JStr → Prop
  | [] => True
  | c :: _ => c = 44 ∨ c = 93 ∨ c = 125

theorem sepOk_head_not_digit (rest : JStr) (h : sepOk rest) :
    ∀ c, rest.head? = some c → isDigitByte c = false := by
  intro c hc
  cases rest with
  | nil => simp at hc
  | cons r t =>
    simp at hc
    subst hc
    simp only [sepOk] at h
    simp [isDigitByte]
    omega

theorem parseNat_natDigits (n : Nat) (rest : JStr) (h : sepOk rest) :
    parseNat (natDigits n ++ rest) = some (n, rest) := by
  have htake := takeWhile_append_eq (p := isDigitByte) (natDigits n) rest
    (fun c hc => by simp [isDigitByte]; have := natDigits_digits n c hc; omega)
    (sepOk_head_not_digit rest h)
  have hdrop := dropWhile_append_eq (p := isDigitByte) (natDigits n) rest
    (fun c hc => by simp [isDigitByte]; have := natDigits_digits n c hc; omega)
    (sepOk_head_not_digit rest h)
  simp only [parseNat, htake, hdrop]
  have := natDigits_ne_nil n
  cases hh : natDigits n with
  | nil => exact absurd hh this
  | cons a b =>
    simp only [← hh]
    simp [hh, digitsVal_natDigits n]
    have hv := digitsVal_natDigits n
    rw [hh] at hv
    simpa using hv

theorem hexVal_hexDigit (d : Nat) (h : d < 16) : hexVal (hexDigit d) = some d := by
  unfold hexDigit hexVal
  by_cases h10 : d < 10
  · rw [if_pos h10, if_pos (by omega)]
    congr 1
    omega
  · rw [if_neg h10, if_neg (by omega), if_pos (by omega)]
    congr 1
    omega

theorem escapeStr_cons (c : Nat) (s : JStr) :
    escapeStr (c :: s) = escapeByte c ++ escapeStr s := rfl

theorem parseEsc_u (h3 h4 a b : Nat) (r s rest : JStr)
    (hv3 : hexVal h3 = some a) (hv4 : hexVal h4 = some b)
    (hp : parseStrBody r = some (s, rest)) :
    parseEsc (117 :: 48 :: 48 :: h3 :: h4 :: r) = some (((a * 16 + b) :: s), rest) := by
  have hv48 : hexVal 48 = some 0 := rfl
  simp only [parseEsc, Option.bind_eq_bind]
  rw [hv48, hv3, hv4, hp]
  simp

theorem parseStrBody_escape (s : JStr) :
    ∀ rest, parseStrBody (escapeStr s ++ 34 :: rest) = some (s, rest) := by
  induction s with
  | nil => intro rest; simp [escapeStr, parseStrBody]
  | cons c s ih =>
    intro rest
    rw [escapeStr_cons, List.append_assoc]
    by_cases h34 : c = 34
    · subst h34
      simp [escapeByte, parseStrBody, parseEsc, unescapeChar, ih rest]
    · by_cases h92 : c = 92
      · subst h92
        simp [escapeByte, parseStrBody, parseEsc, unescapeChar, ih rest]
      · by_cases h8 : c = 8
        · subst h8
          simp [escapeByte, parseStrBody, parseEsc, unescapeChar, ih rest]
        · by_cases h9 : c = 9
          · subst h9
            simp [escapeByte, parseStrBody, parseEsc, unescapeChar, ih rest]
          · by_cases h10 : c = 10
            · subst h10
              simp [escapeByte, parseStrBody, parseEsc, unescapeChar, ih rest]
            · by_cases h12 : c = 12
              · subst h12
                simp [escapeByte, parseStrBody, parseEsc, unescapeChar, ih rest]
              · by_cases h13 : c = 13
                · subst h13
                  simp [escapeByte, parseStrBody, parseEsc, unescapeChar, ih rest]
                · by_cases hlt : c < 32
                  · rw [escapeByte, if_neg h34, if_neg h92, if_neg h8, if_neg h9,
                      if_neg h10, if_neg h12, if_neg h13, if_pos hlt]
                    have hv1 : hexVal (hexDigit (c / 16)) = some (c / 16) :=
                      hexVal_hexDigit _ (by omega)
                    have hv2 : hexVal (hexDigit (c % 16)) = some (c % 16) :=
                      hexVal_hexDigit _ (by omega)
                    simp only [List.append_eq, List.cons_append, List.nil_append]
                    simp only [parseStrBody, reduceIte]
                    rw [parseEsc_u _ _ _ _ _ _ _ hv1 hv2 (ih rest)]
                    have harith : c / 16 * 16 + c % 16 = c := by omega
                    rw [harith]
                    simp
                  · rw [escapeByte, if_neg h34, if_neg h92, if_neg h8, if_neg h9,
                      if_neg h10, if_neg h12, if_neg h13, if_neg hlt]
                    simp only [List.append_eq, List.cons_append, List.nil_append]
                    simp only [parseStrBody, if_neg h34, if_neg h92, Option.bind_eq_bind]
                    simp [ih rest]

/-! ## Shape facts about serialized values -/

theorem stringify_head (v : Json) :
    ∃ c r, stringify v = c :: r ∧ 34 ≤ c ∧ c ≤ 123 ∧ c ≠ 44 ∧ c ≠ 93 ∧ c ≠ 125 := by
  cases v with
  | null => exact ⟨110, _, rfl, by omega, by omega, by omega, by omega, by omega⟩
  | bool b =>
    cases b with
    | true => exact ⟨116, _, rfl, by omega, by omega, by omega, by omega, by omega⟩
    | false => exact ⟨102, _, rfl, by omega, by omega, by omega, by omega, by omega⟩
  | num n =>
    show ∃ c r, intDigits n = c :: r ∧ _
    unfold intDigits
    by_cases hn : n < 0
    · exact ⟨45, _, by rw [if_pos hn], by omega, by omega, by omega, by omega, by omega⟩
    · rw [if_neg hn]
      cases hd : natDigits n.natAbs with
      | nil => exact absurd hd (natDigits_ne_nil _)
      | cons d ds =>
        have hdig := natDigits_digits n.natAbs d (by rw [hd]; simp)
        exact ⟨d, ds, rfl, by omega, by omega, by omega, by omega, by omega⟩
  | str s => exact ⟨34, _, rfl, by omega, by omega, by omega, by omega, by omega⟩
  | arr xs => exact ⟨91, _, rfl, by omega, by omega, by omega, by omega, by omega⟩
  | obj ms => exact ⟨123, _, rfl, by omega, by omega, by omega, by omega, by omega⟩

theorem stringify_last (v : Json) :
    ∃ c, (stringify v).getLast? = some c ∧ 34 ≤ c ∧ c ≤ 125 := by
  cases v with
  | null => exact ⟨108, rfl, by omega, by omega⟩
  | bool b =>
    cases b with
    | true => exact ⟨101, rfl, by omega, by omega⟩
    | false => exact ⟨101, rfl, by omega, by omega⟩
  | num n =>
    show ∃ c, (intDigits n).getLast? = some c ∧ _
    rcases (natDigits n.natAbs).eq_nil_or_concat with hnil | ⟨ds, d, hds⟩
    · exact absurd hnil (natDigits_ne_nil _)
    · have hdig := natDigits_digits n.natAbs d (by rw [hds]; simp)
      rw [List.concat_eq_append] at hds
      unfold intDigits
      by_cases hn : n < 0
      · refine ⟨d, ?_, by omega, by omega⟩
        rw [if_pos hn, hds, show (45 :: (ds ++ [d])) = (45 :: ds) ++ [d] from rfl]
        exact List.getLast?_concat _
      · refine ⟨d, ?_, by omega, by omega⟩
        rw [if_neg hn, hds]
        exact List.getLast?_concat _
  | str s =>
    refine ⟨34, ?_, by omega, by omega⟩
    rw [show (stringify (.str s)) = (34 :: escapeStr s) ++ [34] from by simp [stringify]]
    exact List.getLast?_concat _
  | arr xs =>
    refine ⟨93, ?_, by omega, by omega⟩
    rw [show (stringify (.arr xs)) = (91 :: stringifyElems xs) ++ [93] from by simp [stringify]]
    exact List.getLast?_concat _
  | obj ms =>
    refine ⟨125, ?_, by omega, by omega⟩
    rw [show (stringify (.obj ms)) = (123 :: stringifyFields ms) ++ [125] from by simp [stringify]]
    exact List.getLast?_concat _

theorem hexDigit_ge (d : Nat) : 48 ≤ hexDigit d := by
  unfold hexDigit
  by_cases h : d < 10 <;> simp [h]
  omega

theorem ten_not_mem_escapeByte (c : Nat) : 10 ∉ escapeByte c := by
  unfold escapeByte
  by_cases h34 : c = 34
  · simp [h34]
  by_cases h92 : c = 92
  · simp [h34, h92]
  by_cases h8 : c = 8
  · simp [h34, h92, h8]
  by_cases h9 : c = 9
  · simp [h34, h92, h8, h9]
  by_cases h10 : c = 10
  · simp [h34, h92, h8, h9, h10]
  by_cases h12 : c = 12
  · simp [h34, h92, h8, h9, h10, h12]
  by_cases h13 : c = 13
  · simp [h34, h92, h8, h9, h10, h12, h13]
  by_cases hlt : c < 32
  · simp only [if_neg h34, if_neg h92, if_neg h8, if_neg h9, if_neg h10, if_neg h12,
      if_neg h13, if_pos hlt]
    have g1 := hexDigit_ge (c / 16)
    have g2 := hexDigit_ge (c % 16)
    simp
    omega
  · simp only [if_neg h34, if_neg h92, if_neg h8, if_neg h9, if_neg h10, if_neg h12,
      if_neg h13, if_neg hlt]
    simp
    omega

theorem ten_not_mem_escapeStr (s : JStr) : 10 ∉ escapeStr s := by
  induction s with
  | nil => simp [escapeStr]
  | cons c t ih =>
    rw [escapeStr_cons]
    simp only [List.mem_append]
    push_neg
    exact ⟨ten_not_mem_escapeByte c, ih⟩

theorem ten_not_mem_natDigits (n : Nat) : 10 ∉ natDigits n := by
  intro h
  have := natDigits_digits n 10 h
  omega

theorem ten_not_mem_intDigits (n : Int) : 10 ∉ intDigits n := by
  unfold intDigits
  by_cases h : n < 0
  · simp only [if_pos h, List.mem_cons]
    push_neg
    exact ⟨by omega, ten_not_mem_natDigits _⟩
  · simp only [if_neg h]
    exact ten_not_mem_natDigits _

mutual
theorem ten_not_mem_stringify : ∀ v : Json, 10 ∉ stringify v
  | .null => by simp [stringify]
  | .bool true => by simp [stringify]
  | .bool false => by simp [stringify]
  | .num n => ten_not_mem_intDigits n
  | .str s => by
      have a1 := ten_not_mem_escapeStr s
      simp only [stringify]
      simp [a1]
  | .arr xs => by
      have a1 := ten_not_mem_stringifyElems xs
      simp only [stringify]
      simp [a1]
  | .obj ms => by
      have a1 := ten_not_mem_stringifyFields ms
      simp only [stringify]
      simp [a1]
theorem ten_not_mem_stringifyElems : ∀ xs : JsonArr, 10 ∉ stringifyElems xs
  | .nil => by simp [stringifyElems]
  | .cons h .nil => by
      have a1 := ten_not_mem_stringify h
      simp only [stringifyElems]
      simp [a1]
  | .cons h (.cons h2 t) => by
      have a1 := ten_not_mem_stringify h
      have a2 := ten_not_mem_stringifyElems (.cons h2 t)
      simp only [stringifyElems] at a2 ⊢
      simp [a1, a2]
theorem ten_not_mem_stringifyFields : ∀ ms : JsonObj, 10 ∉ stringifyFields ms
  | .nil => by simp [stringifyFields]
  | .cons k v .nil => by
      have a1 := ten_not_mem_escapeStr k
      have a2 := ten_not_mem_stringify v
      simp only [stringifyFields]
      simp [a1, a2]
  | .cons k v (.cons k2 v2 t) => by
      have a1 := ten_not_mem_escapeStr k
      have a2 := ten_not_mem_stringify v
      have a3 := ten_not_mem_stringifyFields (.cons k2 v2 t)
      simp only [stringifyFields] at a3 ⊢
      simp [a1, a2, a3]
end

/-! ## The parser/serializer round trip -/

mutual
/-- Parser fuel sufficient for a value (one unit per grammar node). -/
def needV : Json → Nat
  | .null => 1
  | .bool _ => 1
  | .num _ => 1
  | .str _ => 1
  | .arr xs => 1 + needA xs
  | .obj ms => 1 + needO ms
/-- Parser fuel sufficient for array elements. -/
def needA : JsonArr → Nat
  | .nil => 0
  | .cons h t => 1 + needV h + needA t
/-- Parser fuel sufficient for object fields. -/
def needO : JsonObj → Nat
  | .nil => 0
  | .cons _ v t => 1 + needV v + needO t
end

theorem needV_pos (v : Json) : 1 ≤ needV v := by
  cases v <;> simp [needV]

theorem skipWs_stringify_append (v : Json) (rest : JStr) :
    skipWs (stringify v ++ rest) = stringify v ++ rest := by
  obtain ⟨c, r, hv, hge, hle, _, _, _⟩ := stringify_head v
  rw [hv]
  simp only [List.cons_append]
  apply skipWs_of_head
  simp only [isJsonWs]
  simp
  omega

theorem stringifyElems_cons_head (h : Json) (t : JsonArr) :
    ∃ c tail, stringifyElems (.cons h t) = c :: tail ∧
      34 ≤ c ∧ c ≤ 123 ∧ c ≠ 44 ∧ c ≠ 93 ∧ c ≠ 125 := by
  obtain ⟨c0, r0, hh, p1, p2, p3, p4, p5⟩ := stringify_head h
  cases t with
  | nil =>
    refine ⟨c0, r0, ?_, p1, p2, p3, p4, p5⟩
    simp only [stringifyElems]
    rw [hh]
  | cons h2 t2 =>
    refine ⟨c0, r0 ++ 44 :: stringifyElems (.cons h2 t2), ?_, p1, p2, p3, p4, p5⟩
    simp only [stringifyElems]
    rw [hh]
    simp

theorem stringifyFields_cons_head (k : JStr) (v : Json) (t : JsonObj) :
    ∃ tail, stringifyFields (.cons k v t) = 34 :: tail := by
  cases t with
  | nil =>
    refine ⟨escapeStr k ++ [34, 58] ++ stringify v, ?_⟩
    simp only [stringifyFields]
    simp
  | cons k2 v2 t2 =>
    refine ⟨escapeStr k ++ [34, 58] ++ stringify v ++ 44 :: stringifyFields (.cons k2 v2 t2), ?_⟩
    simp only [stringifyFields]
    simp

mutual
theorem parseValue_stringify : ∀ (v : Json) (fuel : Nat) (rest : JStr),
    needV v ≤ fuel → sepOk rest → parseValue fuel (stringify v ++ rest) = some (v, rest)
  | v, 0, rest, hf, hr => by
      have := needV_pos v
      omega
  | .null, fuel + 1, rest, hf, hr => by
      rw [show stringify Json.null = [110, 117, 108, 108] from rfl]
      simp only [List.cons_append, List.nil_append]
      simp only [parseValue]
      rw [skipWs_of_head 110 _ (by simp [isJsonWs])]
      simp [dropLit]
  | .bool true, fuel + 1, rest, hf, hr => by
      rw [show stringify (Json.bool true) = [116, 114, 117, 101] from rfl]
      simp only [List.cons_append, List.nil_append]
      simp only [parseValue]
      rw [skipWs_of_head 116 _ (by simp [isJsonWs])]
      simp [dropLit]
  | .bool false, fuel + 1, rest, hf, hr => by
      rw [show stringify (Json.bool false) = [102, 97, 108, 115, 101] from rfl]
      simp only [List.cons_append, List.nil_append]
      simp only [parseValue]
      rw [skipWs_of_head 102 _ (by simp [isJsonWs])]
      simp [dropLit]
  | .num n, fuel + 1, rest, hf, hr => by
      rw [show stringify (Json.num n) = intDigits n from rfl]
      unfold intDigits
      by_cases hn : n < 0
      · rw [if_pos hn]
        simp only [List.cons_append]
        simp only [parseValue]
        rw [skipWs_of_head 45 _ (by simp [isJsonWs])]
        norm_num only [if_false, if_true]
        rw [parseNat_natDigits _ rest hr]
        have hcast : -((n.natAbs : Int)) = n := by omega
        simp only [Option.map_some']
        rw [hcast]
      · rw [if_neg hn]
        cases hnd : natDigits n.natAbs with
        | nil => exact absurd hnd (natDigits_ne_nil _)
        | cons d ds =>
          have hdig := natDigits_digits n.natAbs d (by rw [hnd]; simp)
          have h110 : ¬d = 110 := by omega
          have h116 : ¬d = 116 := by omega
          have h102 : ¬d = 102 := by omega
          have h34 : ¬d = 34 := by omega
          have h91 : ¬d = 91 := by omega
          have h123 : ¬d = 123 := by omega
          have h45 : ¬d = 45 := by omega
          have hdb : isDigitByte d = true := by simp [isDigitByte]; omega
          simp only [List.cons_append]
          simp only [parseValue]
          rw [skipWs_of_head d _ (by simp [isJsonWs]; omega)]
          simp only [h110, h116, h102, h34, h91, h123, h45, hdb, if_false, if_true,
            reduceIte, ite_false, ite_true]
          rw [← List.cons_append, ← hnd, parseNat_natDigits _ rest hr]
          have hcast : ((n.natAbs : Int)) = n := by omega
          simp [hcast]
  | .str s, fuel + 1, rest, hf, hr => by
      rw [show stringify (Json.str s) = 34 :: escapeStr s ++ [34] from rfl]
      simp only [List.cons_append, List.append_assoc, List.singleton_append, List.nil_append]
      simp only [parseValue]
      rw [skipWs_of_head 34 _ (by simp [isJsonWs])]
      norm_num only [if_false, if_true]
      rw [parseStrBody_escape s rest]
      simp
  | .arr .nil, fuel + 1, rest, hf, hr => by
      rw [show stringify (Json.arr .nil) = [91, 93] from rfl]
      simp only [List.cons_append, List.nil_append]
      simp only [parseValue]
      rw [skipWs_of_head 91 _ (by simp [isJsonWs])]
      norm_num only [if_false, if_true]
      rw [skipWs_of_head 93 _ (by simp [isJsonWs])]
  | .arr (.cons h t), fuel + 1, rest, hf, hr => by
      obtain ⟨c0, tail, htail, q1, q2, q3, q4, q5⟩ := stringifyElems_cons_head h t
      rw [show stringify (Json.arr (.cons h t)) =
        91 :: stringifyElems (.cons h t) ++ [93] from rfl]
      simp only [List.cons_append, List.append_assoc, List.singleton_append]
      simp only [parseValue]
      rw [skipWs_of_head 91 _ (by simp [isJsonWs])]
      norm_num only [if_false, if_true]
      rw [htail, List.cons_append, skipWs_of_head c0 _ (by simp [isJsonWs]; omega)]
      rw [← List.cons_append, ← htail]
      split
      · rename_i r2 heq
        rw [htail, List.cons_append, List.cons.injEq] at heq
        exact absurd heq.1 q4
      · have hfa : needA (.cons h t) ≤ fuel := by
          simp only [needV, needA] at hf ⊢
          omega
        simp only [List.nil_append]
        rw [parseElems_stringify (.cons h t) fuel rest (by simp) hfa]
        simp
  | .obj .nil, fuel + 1, rest, hf, hr => by
      rw [show stringify (Json.obj .nil) = [123, 125] from rfl]
      simp only [List.cons_append, List.nil_append]
      simp only [parseValue]
      rw [skipWs_of_head 123 _ (by simp [isJsonWs])]
      norm_num only [if_false, if_true]
      rw [skipWs_of_head 125 _ (by simp [isJsonWs])]
  | .obj (.cons k v t), fuel + 1, rest, hf, hr => by
      obtain ⟨tail, htail⟩ := stringifyFields_cons_head k v t
      rw [show stringify (Json.obj (.cons k v t)) =
        123 :: stringifyFields (.cons k v t) ++ [125] from rfl]
      simp only [List.cons_append, List.append_assoc, List.singleton_append]
      simp only [parseValue]
      rw [skipWs_of_head 123 _ (by simp [isJsonWs])]
      norm_num only [if_false, if_true]
      rw [htail, List.cons_append, skipWs_of_head 34 _ (by simp [isJsonWs])]
      rw [← List.cons_append, ← htail]
      split
      · rename_i r2 heq
        rw [htail, List.cons_append, List.cons.injEq] at heq
        omega
      · have hfo : needO (.cons k v t) ≤ fuel := by
          simp only [needV, needO] at hf ⊢
          omega
        simp only [List.nil_append]
        rw [parseFields_stringify (.cons k v t) fuel rest (by simp) hfo]
        simp
theorem parseElems_stringify : ∀ (xs : JsonArr) (fuel : Nat) (rest : JStr),
    xs ≠ .nil → needA xs ≤ fuel →
    parseElems fuel (stringifyElems xs ++ 93 :: rest) = some (xs, rest)
  | .nil, _, _, hne, _ => absurd rfl hne
  | .cons h t, fuel, rest, _, hf => by
      cases fuel with
      | zero => simp [needA] at hf
      | succ g =>
        cases t with
        | nil =>
          rw [show stringifyElems (.cons h .nil) = stringify h from by
            simp only [stringifyElems]]
          simp only [parseElems]
          rw [parseValue_stringify h g (93 :: rest)
            (by simp only [needA] at hf; omega) (by simp [sepOk])]
          simp only [Option.bind_eq_bind, Option.some_bind]
          rw [skipWs_of_head 93 _ (by simp [isJsonWs])]
          split
          · rename_i r2 heq
            simp at heq
          · rename_i r2 heq
            simp only [List.cons.injEq] at heq
            rw [heq.2]
            rfl
          · rename_i h44 h93
            exact (h93 rest rfl).elim
        | cons h2 t2 =>
          rw [show stringifyElems (.cons h (.cons h2 t2)) =
            stringify h ++ 44 :: stringifyElems (.cons h2 t2) from by
            simp only [stringifyElems]]
          simp only [List.append_assoc, List.cons_append]
          simp only [parseElems]
          rw [parseValue_stringify h g _
            (by simp only [needA] at hf; omega) (by simp [sepOk])]
          simp only [Option.bind_eq_bind, Option.some_bind]
          rw [skipWs_of_head 44 _ (by simp [isJsonWs])]
          split
          · rename_i r2 heq
            simp only [List.cons.injEq] at heq
            rw [← heq.2]
            rw [parseElems_stringify (.cons h2 t2) g rest (by simp)
              (by simp only [needA] at hf ⊢; omega)]
            simp
          · rename_i r2 heq
            simp at heq
          · rename_i h44 h93
            exact (h44 (stringifyElems (.cons h2 t2) ++ 93 :: rest) rfl).elim
theorem parseFields_stringify : ∀ (ms : JsonObj) (fuel : Nat) (rest : JStr),
    ms ≠ .nil → needO ms ≤ fuel →
    parseFields fuel (stringifyFields ms ++ 125 :: rest) = some (ms, rest)
  | .nil, _, _, hne, _ => absurd rfl hne
  | .cons k v t, fuel, rest, _, hf => by
      cases fuel with
      | zero => simp [needO] at hf
      | succ g =>
        cases t with
        | nil =>
          rw [show stringifyFields (.cons k v .nil) =
            34 :: escapeStr k ++ [34, 58] ++ stringify v from by
            simp only [stringifyFields]]
          simp only [List.cons_append, List.append_assoc, List.singleton_append,
            List.nil_append]
          simp only [parseFields]
          rw [skipWs_of_head 34 _ (by simp [isJsonWs])]
          split
          · rename_i r heq
            simp only [List.cons.injEq] at heq
            rw [← heq.2]
            rw [parseStrBody_escape k (58 :: (stringify v ++ 125 :: rest))]
            simp only [Option.bind_eq_bind, Option.some_bind]
            rw [skipWs_of_head 58 _ (by simp [isJsonWs])]
            split
            · rename_i r3 heq3
              simp only [List.cons.injEq] at heq3
              rw [← heq3.2]
              rw [parseValue_stringify v g (125 :: rest)
                (by simp only [needO] at hf; omega) (by simp [sepOk])]
              simp only [Option.bind_eq_bind, Option.some_bind]
              rw [skipWs_of_head 125 _ (by simp [isJsonWs])]
              split
              · rename_i r5 heq5
                simp at heq5
              · rename_i r5 heq5
                simp only [List.cons.injEq] at heq5
                rw [heq5.2]
                rfl
              · rename_i h44 h125
                exact (h125 rest rfl).elim
            · rename_i hne
              exact ((hne (stringify v ++ 125 :: rest)) rfl).elim
          · rename_i hne
            exact ((hne (escapeStr k ++ 34 :: 58 :: (stringify v ++ 125 :: rest))) rfl).elim
        | cons k2 v2 t2 =>
          rw [show stringifyFields (.cons k v (.cons k2 v2 t2)) =
            34 :: escapeStr k ++ [34, 58] ++ stringify v ++
              44 :: stringifyFields (.cons k2 v2 t2) from by
            simp only [stringifyFields]]
          simp only [List.cons_append, List.append_assoc, List.singleton_append,
            List.nil_append]
          simp only [parseFields]
          rw [skipWs_of_head 34 _ (by simp [isJsonWs])]
          split
          · rename_i r heq
            simp only [List.cons.injEq] at heq
            rw [← heq.2]
            rw [parseStrBody_escape k
              (58 :: (stringify v ++ 44 :: (stringifyFields (.cons k2 v2 t2) ++ 125 :: rest)))]
            simp only [Option.bind_eq_bind, Option.some_bind]
            rw [skipWs_of_head 58 _ (by simp [isJsonWs])]
            split
            · rename_i r3 heq3
              simp only [List.cons.injEq] at heq3
              rw [← heq3.2]
              rw [parseValue_stringify v g _
                (by simp only [needO] at hf; omega) (by simp [sepOk])]
              simp only [Option.bind_eq_bind, Option.some_bind]
              rw [skipWs_of_head 44 _ (by simp [isJsonWs])]
              split
              · rename_i r5 heq5
                simp only [List.cons.injEq] at heq5
                rw [← heq5.2]
                rw [parseFields_stringify (.cons k2 v2 t2) g rest (by simp)
                  (by simp only [needO] at hf ⊢; omega)]
                simp
              · rename_i r5 heq5
                simp at heq5
              · rename_i h44 h125
                exact (h44 (stringifyFields (.cons k2 v2 t2) ++ 125 :: rest) rfl).elim
            · rename_i hne
              exact ((hne (stringify v ++ 44 ::
                (stringifyFields (.cons k2 v2 t2) ++ 125 :: rest))) rfl).elim
          · rename_i hne
            exact ((hne (escapeStr k ++ 34 :: 58 :: (stringify v ++ 44 ::
              (stringifyFields (.cons k2 v2 t2) ++ 125 :: rest)))) rfl).elim
end

theorem intDigits_ne_nil (n : Int) : intDigits n ≠ [] := by
  unfold intDigits
  by_cases h : n < 0
  · simp [h]
  · simp [h, natDigits_ne_nil]

mutual
theorem needV_le_length : ∀ v : Json, needV v ≤ (stringify v).length
  | .null => by simp [needV, stringify]
  | .bool true => by simp [needV, stringify]
  | .bool false => by simp [needV, stringify]
  | .num n => by
      have h := intDigits_ne_nil n
      have : 0 < (intDigits n).length := List.length_pos.mpr h
      simp only [needV, stringify]
      omega
  | .str s => by simp [needV, stringify]
  | .arr xs => by
      have h := needA_le_length xs
      simp only [needV, stringify, List.length_cons, List.length_append,
        List.length_singleton]
      omega
  | .obj ms => by
      have h := needO_le_length ms
      simp only [needV, stringify, List.length_cons, List.length_append,
        List.length_singleton]
      omega
theorem needA_le_length : ∀ xs : JsonArr, needA xs ≤ (stringifyElems xs).length + 1
  | .nil => by simp [needA, stringifyElems]
  | .cons h .nil => by
      have hv := needV_le_length h
      simp only [needA, needA.eq_1, stringifyElems]
      omega
  | .cons h (.cons h2 t) => by
      have hv := needV_le_length h
      have ha := needA_le_length (.cons h2 t)
      simp only [needA, stringifyElems, List.length_append, List.length_cons] at *
      omega
theorem needO_le_length : ∀ ms : JsonObj, needO ms ≤ (stringifyFields ms).length + 1
  | .nil => by simp [needO, stringifyFields]
  | .cons k v .nil => by
      have hv := needV_le_length v
      simp only [needO, needO.eq_1, stringifyFields, List.length_append, List.length_cons]
      omega
  | .cons k v (.cons k2 v2 t) => by
      have hv := needV_le_length v
      have ho := needO_le_length (.cons k2 v2 t)
      simp only [needO, stringifyFields, List.length_append, List.length_cons] at *
      omega
end

/-- `JSON.parse` inverts `JSON.stringify` on every modelled JSON value. -/
theorem parseJson_stringify (v : Json) : parseJson (stringify v) = some v := by
  unfold parseJson
  have h1 : needV v ≤ (stringify v).length + 1 :=
    le_trans (needV_le_length v) (by omega)
  have h2 := parseValue_stringify v ((stringify v).length + 1) [] h1 trivial
  rw [List.append_nil] at h2
  rw [h2]
  simp [skipWs]

/-! ## Newline framing: split/join/trim facts -/

/-- Model of `Array.prototype.join` with a one-character separator. -/
def joinSep (sep : Nat) : List JStr → JStr
  | [] => []
  | [p] => p
  | p :: q :: r => p ++ sep :: joinSep sep (q :: r)

theorem jsSplit_ne_nil (sep : Nat) (s : JStr) : jsSplit sep s ≠ [] := by
  cases s with
  | nil => simp [jsSplit]
  | cons c t =>
    simp only [jsSplit]
    cases jsSplit sep t with
    | nil => simp
    | cons h r => by_cases hc : c = sep <;> simp [hc]

theorem jsSplit_no_sep (sep : Nat) :
    ∀ s : JStr, sep ∉ s → jsSplit sep s = [s] := by
  intro s
  induction s with
  | nil => intro _; rfl
  | cons c t ih =>
    intro h
    simp only [List.mem_cons] at h
    push_neg at h
    simp only [jsSplit, ih h.2]
    rw [if_neg (fun hc => h.1 hc.symm)]

theorem jsSplit_append (sep : Nat) (b : JStr) :
    ∀ a : JStr, sep ∉ a → jsSplit sep (a ++ sep :: b) = a :: jsSplit sep b := by
  intro a
  induction a with
  | nil =>
    intro _
    simp only [List.nil_append, jsSplit]
    cases hb : jsSplit sep b with
    | nil => exact absurd hb (jsSplit_ne_nil sep b)
    | cons h r => simp
  | cons c t ih =>
    intro h
    simp only [List.mem_cons] at h
    push_neg at h
    simp only [List.cons_append, jsSplit]
    rw [show (t.append (sep :: b)) = t ++ sep :: b from rfl, ih h.2]
    change (if c = sep then [] :: t :: jsSplit sep b else (c :: t) :: jsSplit sep b) = _
    rw [if_neg (fun hc => h.1 hc.symm)]

theorem jsSplit_joinSep (sep : Nat) :
    ∀ parts : List JStr, parts ≠ [] → (∀ p ∈ parts, sep ∉ p) →
      jsSplit sep (joinSep sep parts) = parts := by
  intro parts
  induction parts with
  | nil => intro h; exact absurd rfl h
  | cons p rest ih =>
    intro _ hmem
    cases rest with
    | nil =>
      rw [show joinSep sep [p] = p from rfl]
      exact jsSplit_no_sep sep p (hmem p (by simp))
    | cons q r =>
      rw [show joinSep sep (p :: q :: r) = p ++ sep :: joinSep sep (q :: r) from rfl]
      rw [jsSplit_append sep _ p (hmem p (by simp))]
      rw [ih (by simp) (fun x hx => hmem x (by simp [hx]))]

theorem jsTrim_eq_self (s : JStr)
    (h1 : ∀ c, s.head? = some c → isTrimWs c = false)
    (h2 : ∀ c, s.getLast? = some c → isTrimWs c = false) : jsTrim s = s := by
  unfold jsTrim
  have hd : s.dropWhile isTrimWs = s := by
    cases s with
    | nil => rfl
    | cons c t => simp [List.dropWhile_cons, h1 c rfl]
  rw [hd]
  have hd2 : s.reverse.dropWhile isTrimWs = s.reverse := by
    cases hs : s.reverse with
    | nil => rfl
    | cons c t =>
      have : s.getLast? = some c := by
        rw [← List.head?_reverse, hs]
        rfl
      simp [List.dropWhile_cons, h2 c this]
  rw [hd2, List.reverse_reverse]

theorem parseLines_stringify :
    ∀ xs : JsonArr, parseLines ((arrToList xs).map stringify) = some xs
  | .nil => rfl
  | .cons h t => by
      have ih := parseLines_stringify t
      simp only [arrToList, List.map_cons, parseLines, parseJson_stringify h, ih,
        Option.bind_eq_bind, Option.some_bind]
      rfl

theorem stringify_ne_nil (v : Json) : stringify v ≠ [] := by
  obtain ⟨c, r, hv, _⟩ := stringify_head v
  rw [hv]
  simp

/-- The body text `X.map(JSON.stringify).join("\n")` of the newline framing. -/
def newlinePayload (xs : JsonArr) : JStr :=
  joinSep 10 ((arrToList xs).map stringify)

theorem joinSep_head? (sep : Nat) (p : JStr) (parts : List JStr) (hp : p ≠ []) :
    (joinSep sep (p :: parts)).head? = p.head? := by
  cases parts with
  | nil => rfl
  | cons q r =>
    rw [show joinSep sep (p :: q :: r) = p ++ sep :: joinSep sep (q :: r) from rfl]
    cases p with
    | nil => exact absurd rfl hp
    | cons c t => rfl

theorem joinSep_cons_ne_nil (sep : Nat) (q : JStr) (r : List JStr) (hq : q ≠ []) :
    joinSep sep (q :: r) ≠ [] := by
  cases r with
  | nil => exact hq
  | cons a b =>
    rw [show joinSep sep (q :: a :: b) = q ++ sep :: joinSep sep (a :: b) from rfl]
    simp

theorem joinSep_getLast? (sep : Nat) :
    ∀ (parts : List JStr) (q : JStr), parts.getLast? = some q →
      (∀ p ∈ parts, p ≠ []) → (joinSep sep parts).getLast? = q.getLast? := by
  intro parts
  induction parts with
  | nil => intro q hq; simp at hq
  | cons p rest ih =>
    intro q hq hne
    cases rest with
    | nil =>
      simp at hq
      rw [show joinSep sep [p] = p from rfl, hq]
    | cons q2 r =>
      have hq' : (q2 :: r).getLast? = some q := by
        rw [List.getLast?_cons_cons] at hq
        exact hq
      rw [show joinSep sep (p :: q2 :: r) = p ++ sep :: joinSep sep (q2 :: r) from rfl]
      have hrec := ih q hq' (fun x hx => hne x (by simp [hx]))
      have hne2 : sep :: joinSep sep (q2 :: r) ≠ [] := by simp
      rw [List.getLast?_append_of_ne_nil _ hne2]
      rw [← hrec]
      cases hj : joinSep sep (q2 :: r) with
      | nil => exact absurd hj (joinSep_cons_ne_nil sep q2 r (hne q2 (by simp)))
      | cons a b => simp [hj]

/-! ## Pipeline lemmas -/

/-- Total byte count of a chunk list. -/
def sumLen (l : List JStr) : Nat := (l.map List.length).sum

theorem validateAuthentication_true_snd (cfg : ServerCfg) (req : Request) (st : SState)
    (h : (validateAuthentication cfg req st).1 = true) :
    validateAuthentication cfg req st = (true, st) := by
  unfold validateAuthentication at h ⊢
  split at h
  · rename_i hc
    rw [if_pos hc]
  · rename_i hc
    rw [if_neg hc]
    simp only at h ⊢
    split at h
    · rename_i hc2
      rw [if_pos hc2]
    · simp at h

theorem validatePath_true_snd (cfg : ServerCfg) (req : Request) (st : SState)
    (h : (validatePath cfg req st).1 = true) :
    validatePath cfg req st = (true, st) := by
  unfold validatePath at h ⊢
  simp only at h ⊢
  split at h
  · rename_i hc
    rw [if_pos hc]
  · simp at h

theorem handleChunk_fold_destroyed (cfg : ServerCfg) :
    ∀ (chunks : List JStr) (st : SState) (size : Nat) (buf : List JStr),
      st.destroyed = true →
      chunks.foldl (handleChunk cfg) (st, size, buf) = (st, size, buf) := by
  intro chunks
  induction chunks with
  | nil => intro st size buf _; rfl
  | cons c rest ih =>
    intro st size buf hd
    simp only [List.foldl_cons]
    rw [show handleChunk cfg (st, size, buf) c = (st, size, buf) from by
      simp [handleChunk, hd]]
    exact ih st size buf hd

theorem handleChunk_fold_ok (cfg : ServerCfg) :
    ∀ (chunks : List JStr) (st : SState) (size0 : Nat) (buf : List JStr),
      st.destroyed = false →
      (∀ n, size0 + sumLen (chunks.take n) ≤ cfg.maxSize) →
      chunks.foldl (handleChunk cfg) (st, size0, buf) =
        (st, size0 + sumLen chunks, buf ++ chunks) := by
  intro chunks
  induction chunks with
  | nil => intro st size0 buf _ _; simp [sumLen]
  | cons c rest ih =>
    intro st size0 buf hd h
    have h1 : size0 + c.length ≤ cfg.maxSize := by
      have := h 1
      simp [sumLen] at this
      omega
    simp only [List.foldl_cons]
    rw [show handleChunk cfg (st, size0, buf) c = (st, size0 + c.length, buf ++ [c]) from by
      simp [handleChunk, validateSize, hd, h1]]
    rw [ih st (size0 + c.length) (buf ++ [c]) hd (fun n => by
      have := h (n + 1)
      simp only [List.take_succ_cons, sumLen, List.map_cons, List.sum_cons] at this
      simp only [sumLen]
      omega)]
    simp [sumLen]
    omega

/-- The state produced by a size rejection of the in-progress state `st`. -/
def sizeRejected (cfg : ServerCfg) (st : SState) : SState :=
  ({ st.respondWith 413 with destroyed := true }).emitEv
    (.refused (sizeRefusedMsg cfg.maxSize))

theorem handleChunk_fold_exceed (cfg : ServerCfg) :
    ∀ (chunks : List JStr) (st : SState) (size0 : Nat) (buf : List JStr),
      st.destroyed = false → size0 ≤ cfg.maxSize →
      (∃ n, cfg.maxSize < size0 + sumLen (chunks.take n)) →
      ∃ size' buf', chunks.foldl (handleChunk cfg) (st, size0, buf) =
        (sizeRejected cfg st, size', buf') := by
  intro chunks
  induction chunks with
  | nil =>
    intro st size0 buf _ hle ⟨n, hn⟩
    simp [sumLen] at hn
    omega
  | cons c rest ih =>
    intro st size0 buf hd hle hex
    by_cases h1 : size0 + c.length ≤ cfg.maxSize
    · simp only [List.foldl_cons]
      rw [show handleChunk cfg (st, size0, buf) c = (st, size0 + c.length, buf ++ [c]) from by
        simp [handleChunk, validateSize, hd, h1]]
      apply ih st (size0 + c.length) (buf ++ [c]) hd h1
      obtain ⟨n, hn⟩ := hex
      cases n with
      | zero => simp [sumLen] at hn; omega
      | succ m =>
        refine ⟨m, ?_⟩
        simp only [List.take_succ_cons, sumLen, List.map_cons, List.sum_cons] at hn
        simp only [sumLen]
        omega
    · simp only [List.foldl_cons]
      rw [show handleChunk cfg (st, size0, buf) c = (sizeRejected cfg st, size0 + c.length, buf)
        from by
        simp [handleChunk, validateSize, sizeRejected, hd, h1]]
      rw [handleChunk_fold_destroyed cfg rest _ _ _ (by simp [sizeRejected, SState.emitEv])]
      exact ⟨_, _, rfl⟩

theorem mem_writes_respondWith (st : SState) (c : Nat) (w : Nat × JStr)
    (h : w ∈ (st.respondWith c).resp.writes) :
    w ∈ st.resp.writes ∨ w.1 = (if c = 0 then 200 else c) := by
  unfold SState.respondWith respond at h
  simp only [List.mem_append, List.mem_singleton] at h
  rcases h with h | h
  · left; exact h
  · right; rw [h]

theorem writes_emitData (cfg : ServerCfg) (req : Request) (st : SState) (data : Json)
    (w : Nat × JStr) (h : w ∈ (emitData cfg req st data).resp.writes) :
    w ∈ st.resp.writes ∨ w.1 = 200 := by
  unfold emitData at h
  by_cases hc : cfg.confirmData
  · rw [if_pos hc] at h
    exact Or.inl h
  · rw [if_neg hc] at h
    unfold doneCall at h
    simp only at h
    have := mem_writes_respondWith _ _ _ h
    rcases this with h2 | h2
    · exact Or.inl h2
    · right; simpa using h2

theorem events_emitData (cfg : ServerCfg) (req : Request) (st : SState) (data : Json) :
    (emitData cfg req st data).events =
      st.events ++ [Ev.dataEmit data (buildMeta req) cfg.confirmData] := by
  unfold emitData doneCall SState.emitEv SState.respondWith
  by_cases hc : cfg.confirmData <;> simp [hc]

theorem destroyed_emitData (cfg : ServerCfg) (req : Request) (st : SState) (data : Json) :
    (emitData cfg req st data).destroyed = st.destroyed := by
  unfold emitData doneCall SState.emitEv SState.respondWith
  by_cases hc : cfg.confirmData <;> simp [hc]

theorem handleRequestData_writes (cfg : ServerCfg) (req : Request) (st : SState) (raw : JStr)
    (w : Nat × JStr) (h : w ∈ (handleRequestData cfg req st raw).resp.writes) :
    w ∈ st.resp.writes ∨ w.1 = 200 ∨ w.1 = 400 := by
  unfold handleRequestData handleCheck at h
  by_cases hraw : raw = [123, 125]
  · simp only [hraw, reduceIte] at h
    simp only [SState.emitEv] at h
    have := mem_writes_respondWith st 200 w (by simpa using h)
    rcases this with h2 | h2
    · exact Or.inl h2
    · right; left; simpa using h2
  · simp only [hraw, reduceIte] at h
    unfold parse at h
    rcases hpd : parseData cfg raw with _ | v
    · rw [hpd] at h
      simp only [SState.emitEv] at h
      have := mem_writes_respondWith _ 400 w (by simpa using h)
      rcases this with h2 | h2
      · exact Or.inl h2
      · right; right; simpa using h2
    · rw [hpd] at h
      cases v with
      | none => exact Or.inl h
      | some j =>
        simp only at h
        by_cases hj : jsFalsy j
        · rw [if_pos hj] at h
          exact Or.inl h
        · rw [if_neg hj] at h
          have := writes_emitData cfg req _ j w h
          rcases this with h2 | h2
          · exact Or.inl h2
          · exact Or.inr (Or.inl h2)

theorem handleRequestData_events (cfg : ServerCfg) (req : Request) (st : SState) (raw : JStr)
    (e : Ev) (h : e ∈ (handleRequestData cfg req st raw).events) :
    e ∈ st.events ∨ e = .check ∨ e = .refused parseRefusedMsg ∨
      ∃ d m b, e = .dataEmit d m b := by
  unfold handleRequestData handleCheck at h
  by_cases hraw : raw = [123, 125]
  · simp only [hraw, reduceIte] at h
    simp only [SState.emitEv, SState.respondWith] at h
    simp only [List.mem_append, List.mem_singleton] at h
    rcases h with h | h
    · exact Or.inl h
    · exact Or.inr (Or.inl h)
  · simp only [hraw, reduceIte] at h
    unfold parse at h
    rcases hpd : parseData cfg raw with _ | v
    · rw [hpd] at h
      simp only [SState.emitEv, SState.respondWith] at h
      simp only [List.mem_append, List.mem_singleton] at h
      rcases h with h | h
      · exact Or.inl h
      · exact Or.inr (Or.inr (Or.inl h))
    · rw [hpd] at h
      cases v with
      | none => exact Or.inl h
      | some j =>
        simp only at h
        by_cases hj : jsFalsy j
        · rw [if_pos hj] at h
          exact Or.inl h
        · rw [if_neg hj] at h
          rw [events_emitData] at h
          simp only [List.mem_append, List.mem_singleton] at h
          rcases h with h | h
          · exact Or.inl h
          · exact Or.inr (Or.inr (Or.inr ⟨_, _, _, h⟩))

theorem handleRequestData_destroyed (cfg : ServerCfg) (req : Request) (st : SState)
    (raw : JStr) :
    (handleRequestData cfg req st raw).destroyed = st.destroyed := by
  unfold handleRequestData handleCheck
  by_cases hraw : raw = [123, 125]
  · simp [hraw, SState.emitEv, SState.respondWith]
  · simp only [hraw, reduceIte]
    unfold parse
    rcases hpd : parseData cfg raw with _ | v
    · simp [SState.emitEv, SState.respondWith]
    · cases v with
      | none => rfl
      | some j =>
        simp only
        by_cases hj : jsFalsy j
        · rw [if_pos hj]
        · rw [if_neg hj]
          rw [destroyed_emitData]

theorem handleEnd_writes (cfg : ServerCfg) (inflate : JStr → Option JStr) (req : Request)
    (st : SState) (buffer : List JStr) (w : Nat × JStr)
    (h : w ∈ (handleEnd cfg inflate req st buffer).resp.writes) :
    w ∈ st.resp.writes ∨ w.1 = 200 ∨ w.1 = 400 := by
  unfold handleEnd at h
  by_cases hd : st.destroyed
  · rw [if_pos hd] at h
    exact Or.inl h
  · rw [if_neg hd] at h
    simp only at h
    by_cases hg : req.contentEncoding = some (jstr "gzip")
    · rw [if_pos hg] at h
      rcases hinf : inflate (buffer.foldr (· ++ ·) []) with _ | data
      · rw [hinf] at h
        simp only [SState.emitEv] at h
        have := mem_writes_respondWith _ 400 w (by simpa using h)
        rcases this with h2 | h2
        · exact Or.inl h2
        · right; right; simpa using h2
      · rw [hinf] at h
        exact handleRequestData_writes cfg req st _ w h
    · rw [if_neg hg] at h
      exact handleRequestData_writes cfg req st _ w h

theorem handleEnd_events (cfg : ServerCfg) (inflate : JStr → Option JStr) (req : Request)
    (st : SState) (buffer : List JStr) (e : Ev)
    (h : e ∈ (handleEnd cfg inflate req st buffer).events) :
    e ∈ st.events ∨ e = .check ∨ e = .refused parseRefusedMsg ∨
      e = .refused inflateRefusedMsg ∨ ∃ d m b, e = .dataEmit d m b := by
  unfold handleEnd at h
  by_cases hd : st.destroyed
  · rw [if_pos hd] at h
    exact Or.inl h
  · rw [if_neg hd] at h
    simp only at h
    by_cases hg : req.contentEncoding = some (jstr "gzip")
    · rw [if_pos hg] at h
      rcases hinf : inflate (buffer.foldr (· ++ ·) []) with _ | data
      · rw [hinf] at h
        simp only [SState.emitEv, SState.respondWith] at h
        simp only [List.mem_append, List.mem_singleton] at h
        rcases h with h | h
        · exact Or.inl h
        · exact Or.inr (Or.inr (Or.inr (Or.inl h)))
      · rw [hinf] at h
        have := handleRequestData_events cfg req st _ e h
        tauto
    · rw [if_neg hg] at h
      have := handleRequestData_events cfg req st _ e h
      tauto

theorem handleEnd_destroyed (cfg : ServerCfg) (inflate : JStr → Option JStr) (req : Request)
    (st : SState) (buffer : List JStr) :
    (handleEnd cfg inflate req st buffer).destroyed = st.destroyed := by
  unfold handleEnd
  by_cases hd : st.destroyed
  · rw [if_pos hd]
  · rw [if_neg hd]
    simp only
    by_cases hg : req.contentEncoding = some (jstr "gzip")
    · rw [if_pos hg]
      rcases hinf : inflate (buffer.foldr (· ++ ·) []) with _ | data
      · simp [SState.emitEv, SState.respondWith]
      · rw [handleRequestData_destroyed]
    · rw [if_neg hg]
      rw [handleRequestData_destroyed]

theorem handleRequest_ok (cfg : ServerCfg) (inflate : JStr → Option JStr) (req : Request)
    (hauth : (validateAuthentication cfg req {}).1 = true)
    (hpath : (validatePath cfg req {}).1 = true)
    (hsize : ∀ n, sumLen (req.chunks.take n) ≤ cfg.maxSize) :
    handleRequest cfg inflate req = handleEnd cfg inflate req {} req.chunks := by
  unfold handleRequest
  rw [validateAuthentication_true_snd _ _ _ hauth]
  simp only
  rw [validatePath_true_snd _ _ _ hpath]
  simp only
  rw [handleChunk_fold_ok cfg req.chunks {} 0 [] rfl (fun n => by simpa using hsize n)]
  simp only [List.nil_append]

theorem handleRequest_exceed (cfg : ServerCfg) (inflate : JStr → Option JStr) (req : Request)
    (hauth : (validateAuthentication cfg req {}).1 = true)
    (hpath : (validatePath cfg req {}).1 = true)
    (hex : ∃ n, cfg.maxSize < sumLen (req.chunks.take n)) :
    handleRequest cfg inflate req = sizeRejected cfg {} := by
  unfold handleRequest
  rw [validateAuthentication_true_snd _ _ _ hauth]
  simp only
  rw [validatePath_true_snd _ _ _ hpath]
  simp only
  obtain ⟨size', buf', hfold⟩ := handleChunk_fold_exceed cfg req.chunks {} 0 [] rfl
    (Nat.zero_le _) (by
      obtain ⟨n, hn⟩ := hex
      exact ⟨n, by simpa using hn⟩)
  rw [hfold]
  unfold handleEnd
  rw [if_pos (by simp [sizeRejected, SState.emitEv])]

/-! ## The claims -/

/-- C9: options read with the `||` idiom silently fall back on falsy values
(`maxSize: 0` → 20971520, `port: 0` → 80, `path: ""` → `"/"`, `format: ""` →
`json_meta`), while `confirmData: false` and an explicit `hostname`
(including `undefined`) are honored because they are read via
`hasOwnProperty`. -/
theorem claim9_falsy_option_defaults :
    (initializeServer { maxSize := some 0 }).maxSize = 20971520 ∧
    (initializeServer { port := some 0 }).port = 80 ∧
    (initializeServer { path := some [] }).path = jstr "/" ∧
    (initializeServer { format := some [] }).format = jstr "json_meta" ∧
    (initializeServer { confirmData := some false }).confirmData = false ∧
    (initializeServer { hostname := some none }).hostname = none ∧
    (initializeServer { hostname := some (some (jstr "example.org")) }).hostname =
      some (jstr "example.org") :=
  ⟨rfl, rfl, rfl, rfl, rfl, rfl, rfl⟩

/-- C1 (failing path): with the default configuration (`json_meta`), a body
whose top-level JSON object has no `interactions` field terminates with **no**
terminal response at all — zero writes, zero notifications, no pending timer,
and the connection left open — contradicting the one-terminal-response
lifecycle invariant (the parse call site's own comment claims it "sends
proper response on fail"). -/
theorem claim1_zero_responses_on_missing_interactions :
    (handleRequest {} (fun _ => none) { chunks := [jstr "\x7b\"a\":1\x7d"] }).resp.writes
        = [] ∧
    (handleRequest {} (fun _ => none) { chunks := [jstr "\x7b\"a\":1\x7d"] }).events = [] ∧
    (handleRequest {} (fun _ => none) { chunks := [jstr "\x7b\"a\":1\x7d"] }).timerActive
        = false ∧
    (handleRequest {} (fun _ => none) { chunks := [jstr "\x7b\"a\":1\x7d"] }).destroyed
        = false ∧
    sentResponse (handleRequest {} (fun _ => none)
        { chunks := [jstr "\x7b\"a\":1\x7d"] }).resp = none :=
  ⟨rfl, rfl, rfl, rfl, rfl⟩

/-- C3 (failing paths): under format `json_meta`, a parsed object whose
`interactions` field is absent yields no 400, no `refused`, and no response
at all; and a *truthy non-array* `interactions` value (here the number 7) is
handed to the application in a `data` notification — the parser's result is
never checked to be an array.  Both contradict the claimed
parse-error handling. -/
theorem claim3_interactions_not_validated :
    ((handleRequest {} (fun _ => none) { chunks := [jstr "\x7b\"b\":2\x7d"] }).resp.writes
        = [] ∧
     (handleRequest {} (fun _ => none) { chunks := [jstr "\x7b\"b\":2\x7d"] }).events
        = []) ∧
    ((handleRequest {} (fun _ => none)
        { chunks := [jstr "\x7b\"interactions\":7\x7d"] }).resp.writes
        = [(200, jstr "\x7b\"success\":true\x7d")] ∧
     (handleRequest {} (fun _ => none)
        { chunks := [jstr "\x7b\"interactions\":7\x7d"] }).events
        = [Ev.dataEmit (Json.num 7)
            (buildMeta { chunks := [jstr "\x7b\"interactions\":7\x7d"] }) false]) :=
  ⟨⟨rfl, rfl⟩, ⟨rfl, rfl⟩⟩

theorem writes_respondWith_ne_nil (st : SState) (c : Nat) :
    (st.respondWith c).resp.writes ≠ [] := by
  unfold SState.respondWith respond
  simp

theorem sentResponse_respondWith_of_ne_nil (st : SState) (c : Nat)
    (h : st.resp.writes ≠ []) :
    sentResponse (st.respondWith c).resp = sentResponse st.resp := by
  unfold SState.respondWith respond sentResponse
  simp only
  cases hw : st.resp.writes with
  | nil => exact absurd hw h
  | cons a l => simp

theorem doneCall_resp (st : SState) (s : Option Json) :
    (doneCall st s).resp =
      respond st.resp (match s with | some (.bool false) => 500 | _ => 200) none := rfl

theorem doneCall_writes_ne_nil (st : SState) (s : Option Json) :
    (doneCall st s).resp.writes ≠ [] := by
  unfold doneCall SState.respondWith respond
  simp

theorem sentResponse_doneCall_of_ne_nil (st : SState) (s : Option Json)
    (h : st.resp.writes ≠ []) :
    sentResponse (doneCall st s).resp = sentResponse st.resp := by
  unfold doneCall
  exact sentResponse_respondWith_of_ne_nil _ _ h

/-- C2: in confirmed mode, once the response has been finalized — by the
completion callback or by the timer — any later invocation of the callback
(and any later timer firing) leaves the response visible to the sender
unchanged: the first finalization wins. -/
theorem claim2_confirmation_idempotent (cfg : ServerCfg) (req : Request) (st : SState)
    (data : Json) (s1 s2 : Option Json) (hc : cfg.confirmData = true) :
    sentResponse (doneCall (doneCall (emitData cfg req st data) s1) s2).resp =
      sentResponse (doneCall (emitData cfg req st data) s1).resp ∧
    sentResponse (doneCall (timerFire (emitData cfg req st data)) s2).resp =
      sentResponse (timerFire (emitData cfg req st data)).resp ∧
    timerFire (doneCall (emitData cfg req st data) s1) =
      doneCall (emitData cfg req st data) s1 := by
  refine ⟨?_, ?_, ?_⟩
  · exact sentResponse_doneCall_of_ne_nil _ s2 (doneCall_writes_ne_nil _ s1)
  · have hact : (emitData cfg req st data).timerActive = true := by
      unfold emitData
      rw [if_pos hc]
    unfold timerFire
    rw [if_pos hact]
    exact sentResponse_doneCall_of_ne_nil _ s2 (doneCall_writes_ne_nil _ _)
  · unfold timerFire
    rw [if_neg (by unfold doneCall SState.respondWith; simp)]

theorem sumLen_take_le (l : List JStr) (n : Nat) : sumLen (l.take n) ≤ sumLen l := by
  conv_rhs => rw [← List.take_append_drop n l]
  simp only [sumLen, List.map_append, List.sum_append]
  omega

theorem sizeRefusedMsg_ne_parseRefusedMsg (m : Nat) :
    sizeRefusedMsg m ≠ parseRefusedMsg := by
  intro h
  have h1 : parseRefusedMsg.head? = some 80 :=
    h ▸ (rfl : (sizeRefusedMsg m).head? = some 80)
  exact absurd h1 (by decide)

theorem sizeRefusedMsg_ne_inflateRefusedMsg (m : Nat) :
    sizeRefusedMsg m ≠ inflateRefusedMsg := by
  intro h
  have h1 : inflateRefusedMsg.head? = some 80 :=
    h ▸ (rfl : (sizeRefusedMsg m).head? = some 80)
  exact absurd h1 (by decide)

/-- C7: body streams whose cumulative byte count ever exceeds `maxSize` are
rejected exactly once — a single 413 write, a destroyed connection, and a
single `refused` notification with the exact reason — with no `data` or
`check` notification; a body totalling exactly `maxSize` is not rejected. -/
theorem claim7_size_limit (cfg : ServerCfg) (inflate : JStr → Option JStr) (req : Request)
    (hauth : (validateAuthentication cfg req {}).1 = true)
    (hpath : (validatePath cfg req {}).1 = true) :
    ((∃ n, cfg.maxSize < sumLen (req.chunks.take n)) →
      (handleRequest cfg inflate req).resp.writes = [(413, statusText 413)] ∧
      (handleRequest cfg inflate req).destroyed = true ∧
      (handleRequest cfg inflate req).events = [Ev.refused (sizeRefusedMsg cfg.maxSize)]) ∧
    (sumLen req.chunks = cfg.maxSize →
      (handleRequest cfg inflate req).destroyed = false ∧
      (∀ w ∈ (handleRequest cfg inflate req).resp.writes, w.1 ≠ 413) ∧
      Ev.refused (sizeRefusedMsg cfg.maxSize) ∉ (handleRequest cfg inflate req).events) := by
  constructor
  · intro hex
    rw [handleRequest_exceed cfg inflate req hauth hpath hex]
    refine ⟨?_, rfl, ?_⟩ <;>
      simp [sizeRejected, SState.respondWith, SState.emitEv, respond]
  · intro htot
    have hsize : ∀ n, sumLen (req.chunks.take n) ≤ cfg.maxSize := by
      intro n
      rw [← htot]
      exact sumLen_take_le _ _
    rw [handleRequest_ok cfg inflate req hauth hpath hsize]
    refine ⟨?_, ?_, ?_⟩
    · rw [handleEnd_destroyed]
    · intro w hw
      have := handleEnd_writes cfg inflate req {} req.chunks w hw
      rcases this with h | h | h
      · simp at h
      · omega
      · omega
    · intro hmem
      have := handleEnd_events cfg inflate req {} req.chunks _ hmem
      rcases this with h | h | h | h | ⟨d, m, b, h⟩
      · simp at h
      · exact Ev.noConfusion h
      · exact sizeRefusedMsg_ne_parseRefusedMsg cfg.maxSize (Ev.refused.inj h)
      · exact sizeRefusedMsg_ne_inflateRefusedMsg cfg.maxSize (Ev.refused.inj h)
      · exact Ev.noConfusion h

/-- The decoded request body text: the concatenated chunks, gzip-reversed
through `inflate` when the header asks for it. -/
def decodedBody (inflate : JStr → Option JStr) (req : Request) : Option JStr :=
  if req.contentEncoding = some (jstr "gzip") then
    (inflate (req.chunks.foldr (· ++ ·) [])).map bufToString
  else some (bufToString (req.chunks.foldr (· ++ ·) []))

/-- C8: a request whose decoded payload is the exact literal `{}` — under
any configured format — answers 200 with body `{"success": true}`, emits
exactly one `check` notification and no `data` notification, and the parser
is never invoked. -/
theorem claim8_check_probe (cfg : ServerCfg) (inflate : JStr → Option JStr) (req : Request)
    (hauth : (validateAuthentication cfg req {}).1 = true)
    (hpath : (validatePath cfg req {}).1 = true)
    (hsize : ∀ n, sumLen (req.chunks.take n) ≤ cfg.maxSize)
    (hbody : decodedBody inflate req = some [123, 125]) :
    (handleRequest cfg inflate req).resp.writes = [(200, jstr "\x7b\"success\":true\x7d")] ∧
    (handleRequest cfg inflate req).events = [Ev.check] ∧
    (handleRequest cfg inflate req).parseArg = none := by
  rw [handleRequest_ok cfg inflate req hauth hpath hsize]
  unfold handleEnd
  rw [if_neg (by simp : ¬(({} : SState).destroyed = true))]
  simp only
  unfold decodedBody at hbody
  by_cases hg : req.contentEncoding = some (jstr "gzip")
  · rw [if_pos hg] at hbody ⊢
    rcases hinf : inflate (req.chunks.foldr (· ++ ·) []) with _ | b
    · rw [hinf] at hbody
      simp at hbody
    · rw [hinf] at hbody
      simp only [Option.map_some'] at hbody
      injection hbody with hb
      change (handleRequestData cfg req {} (bufToString b)).resp.writes = _ ∧
        (handleRequestData cfg req {} (bufToString b)).events = _ ∧
        (handleRequestData cfg req {} (bufToString b)).parseArg = none
      rw [hb]
      refine ⟨rfl, rfl, rfl⟩
  · rw [if_neg hg] at hbody ⊢
    injection hbody with hb
    rw [hb]
    refine ⟨rfl, rfl, rfl⟩

theorem parseArg_emitData (cfg : ServerCfg) (req : Request) (st : SState) (data : Json) :
    (emitData cfg req st data).parseArg = st.parseArg := by
  unfold emitData doneCall SState.emitEv SState.respondWith
  by_cases hc : cfg.confirmData <;> simp [hc]

theorem handleRequestData_parseArg_of_ne (cfg : ServerCfg) (req : Request) (st : SState)
    (raw : JStr) (h : raw ≠ [123, 125]) :
    (handleRequestData cfg req st raw).parseArg = some raw := by
  unfold handleRequestData handleCheck
  simp only [h, reduceIte]
  unfold parse
  rcases hpd : parseData cfg raw with _ | v
  · simp [SState.emitEv, SState.respondWith]
  · cases v with
    | none => rfl
    | some j =>
      simp only
      by_cases hj : jsFalsy j
      · rw [if_pos hj]
      · rw [if_neg hj]
        rw [parseArg_emitData]

/-- C4 (failing behavior): the gzip branch decodes with `zlib.inflate`,
which accepts only zlib-wrapped deflate streams; any zlib-faithful `inflate`
therefore rejects every body carrying the gzip magic `1f 8b`, so a request
with `content-encoding: gzip` and a genuine gzip body is always refused with
400 / "Could not inflate compressed data" and never reaches the parser. -/
theorem claim4_gzip_inflate_mismatch (cfg : ServerCfg) (inflate : JStr → Option JStr)
    (req : Request)
    (hz : ∀ b, zlibHeaderOk b = false → inflate b = none)
    (hauth : (validateAuthentication cfg req {}).1 = true)
    (hpath : (validatePath cfg req {}).1 = true)
    (hsize : ∀ n, sumLen (req.chunks.take n) ≤ cfg.maxSize)
    (hgzip : req.contentEncoding = some (jstr "gzip"))
    (tl : JStr) (hmagic : req.chunks.foldr (· ++ ·) [] = 31 :: 139 :: tl) :
    (handleRequest cfg inflate req).resp.writes = [(400, statusText 400)] ∧
    (handleRequest cfg inflate req).events = [Ev.refused inflateRefusedMsg] ∧
    (handleRequest cfg inflate req).parseArg = none := by
  rw [handleRequest_ok cfg inflate req hauth hpath hsize]
  unfold handleEnd
  rw [if_neg (by simp : ¬(({} : SState).destroyed = true))]
  simp only
  rw [if_pos hgzip, hmagic, hz (31 :: 139 :: tl) (by simp [zlibHeaderOk])]
  refine ⟨rfl, rfl, rfl⟩

/-- C10: the size ceiling is enforced on the raw wire bytes before any
decompression, so a gzip-encoded request whose compressed chunks stay within
`maxSize` is never rejected with 413, and the parser receives the full
decompressed text regardless of how large it is. -/
theorem claim10_limit_pre_decompression (cfg : ServerCfg) (inflate : JStr → Option JStr)
    (req : Request)
    (hauth : (validateAuthentication cfg req {}).1 = true)
    (hpath : (validatePath cfg req {}).1 = true)
    (hsize : ∀ n, sumLen (req.chunks.take n) ≤ cfg.maxSize)
    (hgzip : req.contentEncoding = some (jstr "gzip"))
    (big : JStr) (hinf : inflate (req.chunks.foldr (· ++ ·) []) = some big)
    (hne : big ≠ [123, 125]) :
    (handleRequest cfg inflate req).destroyed = false ∧
    (∀ w ∈ (handleRequest cfg inflate req).resp.writes, w.1 ≠ 413) ∧
    (handleRequest cfg inflate req).parseArg = some big := by
  rw [handleRequest_ok cfg inflate req hauth hpath hsize]
  refine ⟨?_, ?_, ?_⟩
  · rw [handleEnd_destroyed]
  · intro w hw
    have := handleEnd_writes cfg inflate req {} req.chunks w hw
    rcases this with h | h | h
    · simp at h
    · omega
    · omega
  · unfold handleEnd
    rw [if_neg (by simp : ¬(({} : SState).destroyed = true))]
    simp only
    rw [if_pos hgzip, hinf]
    exact handleRequestData_parseArg_of_ne cfg req {} (bufToString big) hne

theorem joinSep_jsSplit (sep : Nat) : ∀ s : JStr, joinSep sep (jsSplit sep s) = s := by
  intro s
  induction s with
  | nil => rfl
  | cons c t ih =>
    cases h : jsSplit sep t with
    | nil => exact absurd h (jsSplit_ne_nil sep t)
    | cons p parts =>
      rw [h] at ih
      simp only [jsSplit, h]
      by_cases hc : c = sep
      · rw [if_pos hc]
        rw [show joinSep sep ([] :: p :: parts) = [] ++ sep :: joinSep sep (p :: parts)
          from rfl]
        rw [ih, hc]
        rfl
      · rw [if_neg hc]
        cases parts with
        | nil =>
          rw [show joinSep sep [c :: p] = c :: p from rfl]
          rw [show joinSep sep [p] = p from rfl] at ih
          rw [ih]
        | cons q r2 =>
          rw [show joinSep sep ((c :: p) :: q :: r2) =
            (c :: p) ++ sep :: joinSep sep (q :: r2) from rfl]
          rw [show joinSep sep (p :: q :: r2) = p ++ sep :: joinSep sep (q :: r2) from rfl]
            at ih
          rw [← ih]
          simp

theorem jsSplit_parts_no_sep (sep : Nat) :
    ∀ (s p : JStr), p ∈ jsSplit sep s → sep ∉ p := by
  intro s
  induction s with
  | nil =>
    intro q hq
    simp [jsSplit] at hq
    simp [hq]
  | cons c t ih =>
    intro q hq
    cases h : jsSplit sep t with
    | nil => exact absurd h (jsSplit_ne_nil sep t)
    | cons f parts =>
      simp only [jsSplit, h] at hq
      by_cases hc : c = sep
      · rw [if_pos hc] at hq
        simp only [List.mem_cons] at hq
        rcases hq with hq | hq
        · simp [hq]
        · exact ih q (by rw [h]; simpa using hq)
      · rw [if_neg hc] at hq
        simp only [List.mem_cons] at hq
        rcases hq with hq | hq
        · have hf : sep ∉ f := ih f (by rw [h]; simp)
          rw [hq]
          simp only [List.mem_cons]
          push_neg
          exact ⟨fun hh => hc hh.symm, hf⟩
        · exact ih q (by rw [h]; simp [hq])

theorem split_fields_iff (u p d : JStr) (hcu : 58 ∉ u) (hcp : 58 ∉ p) :
    ((jsSplit 58 d).get? 0 = some u ∧ (jsSplit 58 d).get? 1 = some p) ↔
      ∃ r, d = u ++ 58 :: p ++ r ∧ (r = [] ∨ ∃ r2, r = 58 :: r2) := by
  constructor
  · rintro ⟨h0, h1⟩
    cases hs : jsSplit 58 d with
    | nil => exact absurd hs (jsSplit_ne_nil _ _)
    | cons f0 fs =>
      rw [hs] at h0 h1
      simp only [List.get?_cons_zero, Option.some.injEq] at h0
      cases fs with
      | nil => simp at h1
      | cons f1 rest =>
        simp only [List.get?_cons_succ, List.get?_cons_zero, Option.some.injEq] at h1
        have hd := joinSep_jsSplit 58 d
        rw [hs, h0, h1] at hd
        cases rest with
        | nil =>
          refine ⟨[], ?_, Or.inl rfl⟩
          rw [← hd]
          simp
          rfl
        | cons q r2 =>
          refine ⟨58 :: joinSep 58 (q :: r2), ?_, Or.inr ⟨_, rfl⟩⟩
          rw [← hd]
          rw [show joinSep 58 (u :: p :: q :: r2) = u ++ 58 :: joinSep 58 (p :: q :: r2)
            from rfl]
          rw [show joinSep 58 (p :: q :: r2) = p ++ 58 :: joinSep 58 (q :: r2) from rfl]
          simp
  · rintro ⟨r, hd, hr⟩
    rcases hr with rfl | ⟨r2, rfl⟩
    · rw [hd]
      rw [show u ++ 58 :: p ++ [] = u ++ 58 :: p from by simp]
      rw [jsSplit_append 58 p u hcu, jsSplit_no_sep 58 p hcp]
      simp
    · rw [hd]
      rw [show u ++ 58 :: p ++ 58 :: r2 = u ++ 58 :: (p ++ 58 :: r2) from by simp]
      rw [jsSplit_append 58 (p ++ 58 :: r2) u hcu, jsSplit_append 58 r2 p hcp]
      simp

theorem validateAuthentication_accepts_iff (u p : JStr) (hu : u ≠ []) (hp : p ≠ [])
    (req : Request) (st : SState) :
    (validateAuthentication { username := some u, password := some p } req st).1 = true ↔
      ((jsSplit 58 (b64DecodeStr
          ((jsSplit 32 (req.authorization.getD [])).getLastD []))).get? 0 = some u ∧
       (jsSplit 58 (b64DecodeStr
          ((jsSplit 32 (req.authorization.getD [])).getLastD []))).get? 1 = some p) := by
  unfold validateAuthentication
  rw [if_neg (by simp [truthyStr, hu, hp])]
  simp only
  split
  · rename_i hcond
    exact iff_of_true rfl hcond
  · rename_i hcond
    exact iff_of_false (by simp) hcond

/-- The authentication rule exactly as the claim words it: the request
carries `Authorization: Basic <base64(user:pass)>`, i.e. the header is the
scheme literal `Basic ` followed by a token whose base64 decoding is
byte-for-byte `user:pass`. -/
def specBasicAuthAccepts (u p : JStr) (auth : Option JStr) : Prop :=
  ∃ t, auth = some (jstr "Basic " ++ t) ∧ b64DecodeStr t = u ++ 58 :: p

/-- C5 counterexample: with credentials `u`/`p` configured, a bare header
value `dTpw` (base64 of `u:p`, with no `Basic` scheme prefix at all) is
accepted by the server, although the claim requires the `Basic` scheme — so
"authenticated iff the header is `Basic <base64(user:pass)>`" is false. -/
theorem claim5_counterexample :
    (validateAuthentication { username := some (jstr "u"), password := some (jstr "p") }
        { authorization := some (jstr "dTpw") } {}).1 = true ∧
    ¬ specBasicAuthAccepts (jstr "u") (jstr "p") (some (jstr "dTpw")) := by
  constructor
  · rfl
  · rintro ⟨t, ht, _⟩
    rw [show jstr "dTpw" = [100, 84, 112, 119] from rfl,
      show jstr "Basic " = [66, 97, 115, 105, 99, 32] from rfl] at ht
    simp at ht

/-- C5 (amended): with a colon-free username and password configured, a
request is authenticated iff the *last space-separated token* of its
`Authorization` header (absent header ≡ empty string) base64-decodes to
`user:pass` optionally followed by a colon-started remainder — the `Basic`
scheme is never verified.  On failure the server answers 401 and emits one
`refused` notification with the exact reason; with no (or empty) configured
credentials every request passes. -/
theorem claim5_auth_characterization (u p : JStr) (hu : u ≠ []) (hp : p ≠ [])
    (hcu : 58 ∉ u) (hcp : 58 ∉ p) (req : Request) (st : SState) :
    ((validateAuthentication { username := some u, password := some p } req st).1 = true ↔
      ∃ r, b64DecodeStr ((jsSplit 32 (req.authorization.getD [])).getLastD []) =
          u ++ 58 :: p ++ r ∧ (r = [] ∨ ∃ r2, r = 58 :: r2)) ∧
    ((validateAuthentication { username := some u, password := some p } req st).1 = false →
      (validateAuthentication { username := some u, password := some p } req st).2 =
        (st.respondWith 401).emitEv (.refused authRefusedMsg)) ∧
    (∀ cfg2 : ServerCfg, (truthyStr cfg2.username && truthyStr cfg2.password) = false →
      (validateAuthentication cfg2 req st).1 = true) := by
  refine ⟨?_, ?_, ?_⟩
  · rw [validateAuthentication_accepts_iff u p hu hp req st]
    exact split_fields_iff u p _ hcu hcp
  · intro hfail
    unfold validateAuthentication at hfail ⊢
    rw [if_neg (by simp [truthyStr, hu, hp])] at hfail ⊢
    simp only at hfail ⊢
    split at hfail
    · simp at hfail
    · rename_i hcond
      rw [if_neg hcond]
  · intro cfg2 hfalse
    unfold validateAuthentication
    rw [if_pos (by simp [hfalse])]

theorem stringify_eq_checkLit (x : Json) (h : stringify x = [123, 125]) :
    x = .obj .nil := by
  cases x with
  | null =>
    rw [show stringify Json.null = [110, 117, 108, 108] from rfl] at h
    simp at h
  | bool b =>
    cases b with
    | true =>
      rw [show stringify (Json.bool true) = [116, 114, 117, 101] from rfl] at h
      simp at h
    | false =>
      rw [show stringify (Json.bool false) = [102, 97, 108, 115, 101] from rfl] at h
      simp at h
  | num n =>
    rw [show stringify (Json.num n) = intDigits n from rfl] at h
    unfold intDigits at h
    by_cases hn : n < 0
    · rw [if_pos hn] at h
      simp at h
    · rw [if_neg hn] at h
      cases hd : natDigits n.natAbs with
      | nil => exact absurd hd (natDigits_ne_nil _)
      | cons d ds =>
        rw [hd] at h
        have hdig := natDigits_digits n.natAbs d (by rw [hd]; simp)
        simp at h
        omega
  | str s =>
    rw [show stringify (.str s) = 34 :: escapeStr s ++ [34] from rfl] at h
    simp at h
  | arr xs =>
    rw [show stringify (.arr xs) = 91 :: stringifyElems xs ++ [93] from rfl] at h
    simp at h
  | obj ms =>
    cases ms with
    | nil => rfl
    | cons k v t =>
      obtain ⟨tail, htail⟩ := stringifyFields_cons_head k v t
      rw [show stringify (.obj (.cons k v t)) =
        123 :: stringifyFields (.cons k v t) ++ [125] from rfl, htail] at h
      simp at h

theorem getLast?_map_gen {α β : Type} (f : α → β) :
    ∀ l : List α, (l.map f).getLast? = l.getLast?.map f := by
  intro l
  induction l with
  | nil => rfl
  | cons a t ih =>
    cases t with
    | nil => rfl
    | cons b r =>
      simp only [List.map_cons, List.getLast?_cons_cons] at *
      exact ih

/-- C6 counterexample: the nonempty batch `X = [{}]` serializes to the
payload `{}`, which the classifier intercepts as a liveness check — one
`check` notification, no `data` notification, and the parser never runs —
so the claimed round trip fails for this `X`. -/
theorem claim6_counterexample :
    newlinePayload (.cons (Json.obj .nil) .nil) = [123, 125] ∧
    (handleRequestData { format := jstr "json_new_line" } {} {}
        (newlinePayload (.cons (Json.obj .nil) .nil))).events = [Ev.check] ∧
    (handleRequestData { format := jstr "json_new_line" } {} {}
        (newlinePayload (.cons (Json.obj .nil) .nil))).parseArg = none :=
  ⟨rfl, rfl, rfl⟩

/-- C6 (amended): for every nonempty batch `X` other than `[{}]` — whose
payload would be the check literal — feeding `X.map(JSON.stringify).join("\n")`
through classification and parsing under format `json_new_line` delivers the
batch `X` itself (one record per line, in order) and emits one `data`
notification carrying it. -/
theorem claim6_newline_roundtrip (cfg : ServerCfg)
    (hfmt : cfg.format = jstr "json_new_line") (req : Request) (st : SState)
    (X : JsonArr) (hne : X ≠ .nil) (hX : X ≠ .cons (Json.obj .nil) .nil) :
    handleRequestData cfg req st (newlinePayload X) =
      emitData cfg req { st with parseArg := some (newlinePayload X) } (Json.arr X) ∧
    (handleRequestData cfg req st (newlinePayload X)).events =
      st.events ++ [Ev.dataEmit (Json.arr X) (buildMeta req) cfg.confirmData] := by
  have hpay : newlinePayload X ≠ [123, 125] := by
    cases X with
    | nil => exact absurd rfl hne
    | cons x xs =>
      cases xs with
      | nil =>
        rw [show newlinePayload (.cons x .nil) = stringify x from rfl]
        intro h
        exact hX (by rw [stringify_eq_checkLit x h])
      | cons y ys =>
        rw [show newlinePayload (.cons x (.cons y ys)) =
          stringify x ++ 10 :: joinSep 10 ((arrToList (.cons y ys)).map stringify)
          from rfl]
        intro h
        have h10 : (10 : Nat) ∈ stringify x ++ 10 ::
            joinSep 10 ((arrToList (.cons y ys)).map stringify) := by simp
        rw [h] at h10
        simp at h10
  obtain ⟨x, xs, rfl⟩ : ∃ x xs, X = .cons x xs := by
    cases X with
    | nil => exact absurd rfl hne
    | cons x xs => exact ⟨x, xs, rfl⟩
  have hparts_ne : (arrToList (JsonArr.cons x xs)).map stringify ≠ [] := by
    simp [arrToList]
  have hparts10 : ∀ q ∈ (arrToList (JsonArr.cons x xs)).map stringify, (10 : Nat) ∉ q := by
    intro q hq
    simp only [List.mem_map] at hq
    obtain ⟨v, _, rfl⟩ := hq
    exact ten_not_mem_stringify v
  have htrim : jsTrim (newlinePayload (JsonArr.cons x xs)) =
      newlinePayload (JsonArr.cons x xs) := by
    apply jsTrim_eq_self
    · intro c hc
      rw [show newlinePayload (JsonArr.cons x xs) =
        joinSep 10 (stringify x :: (arrToList xs).map stringify) from rfl] at hc
      rw [joinSep_head? 10 (stringify x) _ (stringify_ne_nil x)] at hc
      obtain ⟨c0, r0, hv, hge, hle, _, _, _⟩ := stringify_head x
      rw [hv] at hc
      simp only [List.head?_cons, Option.some.injEq] at hc
      subst hc
      simp [isTrimWs]
      omega
    · intro c hc
      obtain ⟨q, hq⟩ : ∃ q, (arrToList (JsonArr.cons x xs)).getLast? = some q := by
        cases hL : (arrToList (JsonArr.cons x xs)).getLast? with
        | none =>
          rw [List.getLast?_eq_none_iff] at hL
          simp [arrToList] at hL
        | some q => exact ⟨q, rfl⟩
      have hlast : ((arrToList (JsonArr.cons x xs)).map stringify).getLast? =
          some (stringify q) := by
        rw [getLast?_map_gen, hq]
        rfl
      rw [show newlinePayload (JsonArr.cons x xs) =
        joinSep 10 ((arrToList (JsonArr.cons x xs)).map stringify) from rfl] at hc
      rw [joinSep_getLast? 10 _ (stringify q) hlast (fun z hz => by
        simp only [List.mem_map] at hz
        obtain ⟨v, _, rfl⟩ := hz
        exact stringify_ne_nil v)] at hc
      obtain ⟨cl, hcl, hge, hle⟩ := stringify_last q
      rw [hcl] at hc
      injection hc with hc
      subst hc
      simp [isTrimWs]
      omega
  have hsplit : jsSplit 10 (newlinePayload (JsonArr.cons x xs)) =
      (arrToList (JsonArr.cons x xs)).map stringify :=
    jsSplit_joinSep 10 _ hparts_ne hparts10
  have key : handleRequestData cfg req st (newlinePayload (JsonArr.cons x xs)) =
      emitData cfg req { st with parseArg := some (newlinePayload (JsonArr.cons x xs)) }
        (Json.arr (JsonArr.cons x xs)) := by
    unfold handleRequestData handleCheck
    rw [if_neg hpay]
    simp only
    unfold parse parseData
    rw [hfmt]
    rw [if_neg (by decide :
      ¬(jstr "json_new_line" = jstr "json_meta" ∨ jstr "json_new_line" = jstr "json_array"))]
    rw [htrim, hsplit, parseLines_stringify (JsonArr.cons x xs)]
    have hfalsy : jsFalsy (Json.arr (JsonArr.cons x xs)) = false := rfl
    simp only [hfalsy, Bool.false_eq_true, if_false]
  refine ⟨key, ?_⟩
  rw [key, events_emitData]

/-- Witness for C2 at a concrete confirmed-mode configuration. -/
theorem claim2_confirmation_idempotent_witness :
    sentResponse (doneCall (doneCall (emitData { confirmData := true } {} {} Json.null) none)
        (some (Json.bool false))).resp =
      sentResponse (doneCall (emitData { confirmData := true } {} {} Json.null) none).resp ∧
    sentResponse (doneCall (timerFire (emitData { confirmData := true } {} {} Json.null))
        (some (Json.bool false))).resp =
      sentResponse (timerFire (emitData { confirmData := true } {} {} Json.null)).resp ∧
    timerFire (doneCall (emitData { confirmData := true } {} {} Json.null) none) =
      doneCall (emitData { confirmData := true } {} {} Json.null) none :=
  claim2_confirmation_idempotent { confirmData := true } {} {} Json.null none
    (some (Json.bool false)) rfl

/-- Witness for C7: two 4-byte chunks against a 5-byte cap are rejected with
a single 413; a single 5-byte chunk against the same cap is not. -/
theorem claim7_size_limit_witness :
    ((handleRequest { maxSize := 5 } (fun _ => none)
        { chunks := [jstr "aaaa", jstr "bbbb"] }).resp.writes = [(413, statusText 413)] ∧
     (handleRequest { maxSize := 5 } (fun _ => none)
        { chunks := [jstr "aaaa", jstr "bbbb"] }).destroyed = true ∧
     (handleRequest { maxSize := 5 } (fun _ => none)
        { chunks := [jstr "aaaa", jstr "bbbb"] }).events =
       [Ev.refused (sizeRefusedMsg (({ maxSize := 5 } : ServerCfg)).maxSize)]) ∧
    ((handleRequest { maxSize := 5 } (fun _ => none)
        { chunks := [jstr "abcde"] }).destroyed = false ∧
     (∀ w ∈ (handleRequest { maxSize := 5 } (fun _ => none)
        { chunks := [jstr "abcde"] }).resp.writes, w.1 ≠ 413) ∧
     Ev.refused (sizeRefusedMsg (({ maxSize := 5 } : ServerCfg)).maxSize) ∉
       (handleRequest { maxSize := 5 } (fun _ => none) { chunks := [jstr "abcde"] }).events) :=
  ⟨(claim7_size_limit { maxSize := 5 } (fun _ => none)
      { chunks := [jstr "aaaa", jstr "bbbb"] } rfl rfl).1 ⟨2, by decide⟩,
   (claim7_size_limit { maxSize := 5 } (fun _ => none)
      { chunks := [jstr "abcde"] } rfl rfl).2 (by decide)⟩

/-- Witness for C8: the literal body `{}` under the default configuration. -/
theorem claim8_check_probe_witness :
    (handleRequest {} (fun _ => none) { chunks := [jstr "\x7b\x7d"] }).resp.writes =
      [(200, jstr "\x7b\"success\":true\x7d")] ∧
    (handleRequest {} (fun _ => none) { chunks := [jstr "\x7b\x7d"] }).events = [Ev.check] ∧
    (handleRequest {} (fun _ => none) { chunks := [jstr "\x7b\x7d"] }).parseArg = none :=
  claim8_check_probe {} (fun _ => none) { chunks := [jstr "\x7b\x7d"] } rfl rfl
    (fun n => le_trans (sumLen_take_le _ n) (by decide)) rfl

/-- Witness for C4: a genuine gzip stream (gzip of `{}`) under a
zlib-header-checking `inflate` is refused with 400. -/
theorem claim4_gzip_inflate_mismatch_witness :
    (handleRequest {} (fun b => if zlibHeaderOk b then some b else none)
        { contentEncoding := some (jstr "gzip"),
          chunks := [[31, 139, 8, 0, 0, 0, 0, 0, 0, 3,
            171, 174, 5, 0, 67, 191, 166, 163, 2, 0, 0, 0]] }).resp.writes =
      [(400, statusText 400)] ∧
    (handleRequest {} (fun b => if zlibHeaderOk b then some b else none)
        { contentEncoding := some (jstr "gzip"),
          chunks := [[31, 139, 8, 0, 0, 0, 0, 0, 0, 3,
            171, 174, 5, 0, 67, 191, 166, 163, 2, 0, 0, 0]] }).events =
      [Ev.refused inflateRefusedMsg] ∧
    (handleRequest {} (fun b => if zlibHeaderOk b then some b else none)
        { contentEncoding := some (jstr "gzip"),
          chunks := [[31, 139, 8, 0, 0, 0, 0, 0, 0, 3,
            171, 174, 5, 0, 67, 191, 166, 163, 2, 0, 0, 0]] }).parseArg = none :=
  claim4_gzip_inflate_mismatch {} (fun b => if zlibHeaderOk b then some b else none)
    { contentEncoding := some (jstr "gzip"),
      chunks := [[31, 139, 8, 0, 0, 0, 0, 0, 0, 3,
        171, 174, 5, 0, 67, 191, 166, 163, 2, 0, 0, 0]] }
    (fun b hb => by simp [hb]) rfl rfl
    (fun n => le_trans (sumLen_take_le _ n) (by decide)) rfl
    [8, 0, 0, 0, 0, 0, 0, 3, 171, 174, 5, 0, 67, 191, 166, 163, 2, 0, 0, 0] rfl

/-- Witness for C10: three compressed bytes within a 3-byte cap inflate to a
five-byte payload that reaches the parser with no 413. -/
theorem claim10_limit_pre_decompression_witness :
    (handleRequest { maxSize := 3 } (fun _ => some (jstr "11111"))
        { contentEncoding := some (jstr "gzip"), chunks := [[31, 139, 8]] }).destroyed
      = false ∧
    (∀ w ∈ (handleRequest { maxSize := 3 } (fun _ => some (jstr "11111"))
        { contentEncoding := some (jstr "gzip"), chunks := [[31, 139, 8]] }).resp.writes,
      w.1 ≠ 413) ∧
    (handleRequest { maxSize := 3 } (fun _ => some (jstr "11111"))
        { contentEncoding := some (jstr "gzip"), chunks := [[31, 139, 8]] }).parseArg =
      some (jstr "11111") ∧
    (({ maxSize := 3 } : ServerCfg)).maxSize < (jstr "11111").length := by
  have h := claim10_limit_pre_decompression { maxSize := 3 } (fun _ => some (jstr "11111"))
    { contentEncoding := some (jstr "gzip"), chunks := [[31, 139, 8]] } rfl rfl
    (fun n => le_trans (sumLen_take_le _ n) (by decide)) rfl (jstr "11111") rfl (by decide)
  exact ⟨h.1, h.2.1, h.2.2, by decide⟩

/-- Witness for C5 at the canonical header `Basic dTpw` for `u`/`p`. -/
theorem claim5_auth_characterization_witness :
    ((validateAuthentication { username := some (jstr "u"), password := some (jstr "p") }
        { authorization := some (jstr "Basic dTpw") } {}).1 = true ↔
      ∃ r, b64DecodeStr ((jsSplit 32
            ((({ authorization := some (jstr "Basic dTpw") } : Request
              )).authorization.getD [])).getLastD []) =
          jstr "u" ++ 58 :: jstr "p" ++ r ∧ (r = [] ∨ ∃ r2, r = 58 :: r2)) ∧
    ((validateAuthentication { username := some (jstr "u"), password := some (jstr "p") }
        { authorization := some (jstr "Basic dTpw") } {}).1 = false →
      (validateAuthentication { username := some (jstr "u"), password := some (jstr "p") }
        { authorization := some (jstr "Basic dTpw") } {}).2 =
        (SState.respondWith {} 401).emitEv (.refused authRefusedMsg)) ∧
    (∀ cfg2 : ServerCfg, (truthyStr cfg2.username && truthyStr cfg2.password) = false →
      (validateAuthentication cfg2 { authorization := some (jstr "Basic dTpw") } {}).1
        = true) :=
  claim5_auth_characterization (jstr "u") (jstr "p") (by decide) (by decide) (by decide)
    (by decide) { authorization := some (jstr "Basic dTpw") } {}

/-- Witness for C6 at the two-record batch `[1, true]`. -/
theorem claim6_newline_roundtrip_witness :
    handleRequestData { format := jstr "json_new_line" } {} {}
        (newlinePayload (.cons (Json.num 1) (.cons (Json.bool true) .nil))) =
      emitData { format := jstr "json_new_line" } {}
        { parseArg := some (newlinePayload (.cons (Json.num 1) (.cons (Json.bool true) .nil))) }
        (Json.arr (.cons (Json.num 1) (.cons (Json.bool true) .nil))) ∧
    (handleRequestData { format := jstr "json_new_line" } {} {}
        (newlinePayload (.cons (Json.num 1) (.cons (Json.bool true) .nil)))).events =
      [Ev.dataEmit (Json.arr (.cons (Json.num 1) (.cons (Json.bool true) .nil)))
        (buildMeta {}) false] :=
  claim6_newline_roundtrip { format := jstr "json_new_line" } rfl {} {}
    (.cons (Json.num 1) (.cons (Json.bool true) .nil))
    (by intro h; exact JsonArr.noConfusion h)
    (by intro h; injection h with h1 h2; exact Json.noConfusion h1)
